import Mathlib

/-!
Verification development for the `mcp-toolbox-sdk-js` core package
(`@toolbox-sdk/core`).  The TypeScript sources under
`packages/toolbox-core/src/toolbox_core/` are shallowly embedded as Lean
definitions:

* `utils.ts` — `resolveValue`, `identifyAuthRequirements`;
* `protocol.ts` — the declarative parameter schemas and the translation
  into zod validators (`buildZodShapeFromTypeSchema`,
  `buildZodShapeFromParam`, `createZodSchemaFromParams`);
* `tool.ts` — the `ToolboxTool` factory: construction-time checks, the
  invocation callable, `bindParams`, `addAuthTokenGetters`;
* `client.ts` — the per-tool parameter partitioning
  (`#createToolInstance`) and the unused-key accounting of `loadTool`
  and `loadToolset`.

JavaScript runtime values are modelled by the inductive `Value`;
JavaScript records (plain objects) are modelled by association lists in
property-insertion order, with `setKey` reproducing the semantics of
property assignment and object spread.  zod validators are modelled by
the inductive `ZodType` together with the parser `parseZ`, which returns
the transformed output value exactly as `ZodObject.parse` does
(strip-mode objects drop unknown keys, strict-mode objects reject them,
missing keys are validated as `undefined`).  Asynchronous resolution of
bound values / token getters is modelled by explicit state passing: a
zero-argument (possibly async) JS function becomes a state transformer
`σ → Except String Value × σ`, a rejected promise becomes an
`Except.error`.
-/

/-- A JavaScript runtime value, as far as the library inspects it.
Numbers carry an `isInt` flag standing for `Number.isInteger`. -/
inductive Value where
  | vnull
  | vundef
  | vstr (s : String)
  | vnum (n : Int) (isInt : Bool)
  | vbool (b : Bool)
  | varr (elems : List Value)
  | vobj (fields : List (String × Value))
deriving Repr

/-- `value !== null && value !== undefined` is `!(isNullish value)`. -/
def isNullish : Value → Bool
  | .vnull => true
  | .vundef => true
  | _ => false

/-- `typeof value === "undefined"`. -/
def isUndef : Value → Bool
  | .vundef => true
  | _ => false

/-- Look a key up in a JS record modelled as an association list
(properties are unique in a JS object; the first match is taken). -/
def lookupKey {α : Type} (fields : List (String × α)) (k : String) : Option α :=
  (fields.find? (fun p => p.1 == k)).map (·.2)

/-- JS property assignment `obj[k] = v`: updates the value in place if
the key is present (keeping its position), otherwise appends the key. -/
def setKey {α : Type} (fields : List (String × α)) (k : String) (v : α) :
    List (String × α) :=
  if fields.any (fun p => p.1 == k) then
    fields.map (fun p => if p.1 == k then (k, v) else p)
  else
    fields ++ [(k, v)]

/-- JS object spread `{...base, ...extra}`: every property of `extra` is
assigned over `base`, later assignments winning. -/
def spreadKV {α : Type} (base extra : List (String × α)) : List (String × α) :=
  extra.foldl (fun acc p => setKey acc p.1 p.2) base

/-- `Set.add` on a JS `Set` kept as its insertion-ordered element list. -/
def insertUnique (xs : List String) (x : String) : List String :=
  if xs.contains x then xs else xs ++ [x]

/-- The keys of a JS record. -/
def keysOf {α : Type} (fields : List (String × α)) : List String :=
  fields.map (·.1)

section ValueResolver

variable {σ : Type}

/-- A `BoundValue` from `utils.ts`: a literal, or a zero-argument
function (sync or async).  A stateful JS function is modelled as a state
transformer; a throw / rejected promise is `Except.error`. -/
inductive BoundValue (σ : Type) where
  | lit (v : Value)
  | fn (f : σ → Except String Value × σ)

/-- `resolveValue` from `utils.ts`: if the input is a function, invoke
it (awaiting its result, which the state-passing sequencing models);
otherwise return the input as-is. -/
def resolveValue (value : BoundValue σ) (s : σ) : Except String Value × σ :=
  match value with
  | .fn f => f s
  | .lit v => (.ok v, s)

end ValueResolver

/-- `identifyAuthRequirements` from `utils.ts`.  Maps and sets are kept
in insertion order: `reqAuthnParams` is the entry list of the record,
`usedServices` the element list of the JS `Set`. -/
def identifyAuthRequirements
    (reqAuthnParams : List (String × List String))
    (reqAuthzTokens : List String)
    (authServiceNames : List String) :
    List (String × List String) × List String × List String :=
  let availableServices := authServiceNames
  let step1 := reqAuthnParams.foldl
    (fun (acc : List (String × List String) × List String) entry =>
      let matchedAuthnServices := entry.2.filter (fun s => availableServices.contains s)
      if matchedAuthnServices.isEmpty then
        (acc.1 ++ [entry], acc.2)
      else
        (acc.1, matchedAuthnServices.foldl insertUnique acc.2))
    ([], [])
  let step2 := reqAuthzTokens.foldl
    (fun (acc : List String × List String) token =>
      if availableServices.contains token then
        (acc.1, insertUnique acc.2 token)
      else
        (acc.1 ++ [token], acc.2))
    ([], step1.2)
  (step1.1, step2.1, step2.2)

section IdentifyAuthLemmas

theorem mem_insertUnique (xs : List String) (x a : String) :
    a ∈ insertUnique xs x ↔ a ∈ xs ∨ a = x := by
  simp only [insertUnique]
  split
  · rename_i hc
    rw [List.contains_eq_any_beq] at hc
    simp only [List.any_eq_true, beq_iff_eq] at hc
    obtain ⟨b, hb, rfl⟩ := hc
    constructor
    · exact fun h => Or.inl h
    · rintro (h | rfl)
      · exact h
      · exact hb
  · simp

theorem mem_foldl_insertUnique (ys : List String) (acc : List String) (a : String) :
    a ∈ ys.foldl insertUnique acc ↔ a ∈ acc ∨ a ∈ ys := by
  induction ys generalizing acc with
  | nil => simp
  | cons y ys ih =>
      simp only [List.foldl_cons, ih, mem_insertUnique, List.mem_cons]
      tauto

end IdentifyAuthLemmas

/-! ## The zod validator model

`protocol.ts` builds zod validators.  `ZodType` covers exactly the zod
combinators the source uses: `z.string()`, `z.number()` /
`z.number().int()`, `z.boolean()`, `z.any()`, `z.array`, `z.record`,
`z.object` (in default strip mode or after `.strict()`), and
`.nullish()`.  `parseZ` reproduces `parse`: it returns the transformed
output.  A strip-mode object drops unknown keys; a strict object
rejects them; a missing key is validated as `undefined` and is included
in the output only when its parsed value is not `undefined`. -/

inductive ZodType where
  | zstring
  | znumber (int : Bool)
  | zboolean
  | zany
  | zarray (item : ZodType)
  | zrecord (valueType : ZodType)
  | zobject (shape : List (String × ZodType)) (strict : Bool)
  | znullish (inner : ZodType)

mutual

/-- `schema.parse(value)` for the zod combinators used by the source,
returning `none` on a `ZodError` and the parse output otherwise. -/
def parseZ : ZodType → Value → Option Value
  | .zstring, .vstr s => some (.vstr s)
  | .zstring, _ => none
  | .znumber int, .vnum n i => if int && !i then none else some (.vnum n i)
  | .znumber _, _ => none
  | .zboolean, .vbool b => some (.vbool b)
  | .zboolean, _ => none
  | .zany, v => some v
  | .zarray item, .varr elems => (parseElems item elems).map .varr
  | .zarray _, _ => none
  | .zrecord valueType, .vobj fields => (parseRecordFields valueType fields).map .vobj
  | .zrecord _, _ => none
  | .zobject shape strict, .vobj fields =>
      if strict && fields.any (fun p => !(shape.any (fun q => q.1 == p.1))) then none
      else (parseShape shape fields).map .vobj
  | .zobject _ _, _ => none
  | .znullish _, .vnull => some .vnull
  | .znullish _, .vundef => some .vundef
  | .znullish inner, v => parseZ inner v

/-- Element-wise parse of an array against the item schema. -/
def parseElems (item : ZodType) : List Value → Option (List Value)
  | [] => some []
  | v :: vs => do
      let out ← parseZ item v
      let outs ← parseElems item vs
      return out :: outs

/-- Value-wise parse of a `z.record(z.string(), valueType)`. -/
def parseRecordFields (valueType : ZodType) :
    List (String × Value) → Option (List (String × Value))
  | [] => some []
  | (k, v) :: rest => do
      let out ← parseZ valueType v
      let outs ← parseRecordFields valueType rest
      return (k, out) :: outs

/-- Field-wise parse of a `z.object(shape)`: each shape key is looked up
in the input (missing keys are validated as `undefined`, and omitted
from the output when the parse output is `undefined`). -/
def parseShape : List (String × ZodType) → List (String × Value) →
    Option (List (String × Value))
  | [], _ => some []
  | (k, t) :: restShape, fields =>
      match lookupKey fields k with
      | some v => do
          let out ← parseZ t v
          let outs ← parseShape restShape fields
          return (k, out) :: outs
      | none => do
          let out ← parseZ t .vundef
          let outs ← parseShape restShape fields
          return (if isUndef out then outs else (k, out) :: outs)

end

/-! ## The Schema Translator (`protocol.ts`) -/

/-- The pure type part of a parameter (`TypeSchema` in `protocol.ts`):
`string`, `integer`, `float`, `boolean`, `array` (with an `items`
schema), or `object` (with an optional `additionalProperties` that is a
boolean or a nested schema). -/
inductive TypeSchema where
  | tstring
  | tinteger
  | tfloat
  | tboolean
  | tarray (items : TypeSchema)
  | tobject (additionalProperties : Option (Bool ⊕ TypeSchema))

/-- A named parameter (`ParameterSchema = BaseParameter & TypeSchema`
in `protocol.ts`). -/
structure ParameterSchema where
  name : String
  description : String
  authSources : Option (List String) := none
  required : Option Bool := none
  typeSchema : TypeSchema

/-- `buildZodShapeFromTypeSchema` from `protocol.ts`: the open switch on
`typeSchema.type`.  For `object`: a `TypeSchema`-valued
`additionalProperties` gives `z.record` of its translation; `false`
gives `z.object({})` (strip mode — `.strict()` is NOT applied);
anything else gives `z.record(z.string(), z.any())`. -/
def buildZodShapeFromTypeSchema : TypeSchema → ZodType
  | .tstring => .zstring
  | .tinteger => .znumber true
  | .tfloat => .znumber false
  | .tboolean => .zboolean
  | .tarray items => .zarray (buildZodShapeFromTypeSchema items)
  | .tobject (some (Sum.inr t)) => .zrecord (buildZodShapeFromTypeSchema t)
  | .tobject (some (Sum.inl false)) => .zobject [] false
  | .tobject _ => .zrecord .zany

/-- `buildZodShapeFromParam` from `protocol.ts`: translate the type,
then apply `.nullish()` exactly when `required === false`. -/
def buildZodShapeFromParam (param : ParameterSchema) : ZodType :=
  let schema := buildZodShapeFromTypeSchema param.typeSchema
  if param.required = some false then .znullish schema else schema

/-- `createZodSchemaFromParams` from `protocol.ts`: a strict
`z.object` whose shape assigns `shape[param.name]` for each parameter
in order. -/
def createZodSchemaFromParams (params : List ParameterSchema) : ZodType :=
  .zobject
    (params.foldl (fun shape param => setKey shape param.name (buildZodShapeFromParam param)) [])
    true

/-! ## The Tool Instance (`tool.ts`) -/

/-- `getAuthHeaderName` from `tool.ts`. -/
def getAuthHeaderName (authTokenName : String) : String :=
  authTokenName ++ "_token"

/-- The errors thrown by `ToolboxTool` construction and by the
derivation methods `bindParams` / `addAuthTokenGetters`.  Each
constructor carries the dynamic parts interpolated into the thrown
`Error` message. -/
inductive ToolError where
  | headerConflict (duplicates : List String)
  | rebindParam (paramName toolName : String)
  | noSuchParam (paramName toolName : String)
  | dupAuthSource (duplicates : List String) (toolName : String)
  | unusedAuthSource (unused : List String) (toolName : String)
deriving Repr

/-- The errors thrown by the invocation callable, each carrying the
dynamic parts of the thrown `Error` message.  `resolutionFailed` is a
rejected bound-value / header / token promise propagated unchanged. -/
inductive InvokeError where
  | authRequired (services : List String)
  | argValidationFailed (toolName : String)
  | resolutionFailed (message : String)
  | headerNotString (headerName : String)
  | tokenNotString (authService : String)
deriving Repr

/-- The HTTP POST a successful invocation issues: its URL, its
null-stripped JSON payload, and its resolved headers.  An invocation
that fails never produces a request (the session is never used). -/
structure HttpRequest where
  url : String
  payload : List (String × Value)
  headers : List (String × String)

/-- The state captured by the callable returned by the `ToolboxTool`
factory (the function properties assigned to `callable`).  The `σ`
parameter is the state threaded through resolution of bound values,
client headers and auth-token getters. -/
structure Tool (σ : Type) where
  baseUrl : String
  toolName : String
  description : String
  /-- The shape of the full Zod `paramSchema` (field order = property
  insertion order). -/
  params : List (String × ZodType)
  /-- Whether `paramSchema` is strict (`createZodSchemaFromParams`
  always produces a strict object; `.omit` preserves strictness). -/
  paramsStrict : Bool
  authTokenGetters : List (String × BoundValue σ)
  requiredAuthnParams : List (String × List String)
  requiredAuthzTokens : List String
  boundParams : List (String × BoundValue σ)
  clientHeaders : List (String × BoundValue σ)

/-- The construction-time header-collision computation in `ToolboxTool`:
client header names that equal a derived auth header name of some
registered getter. -/
def headerConflicts {σ : Type}
    (authTokenGetters : List (String × BoundValue σ))
    (clientHeaders : List (String × BoundValue σ)) : List String :=
  let requestHeaderNames := keysOf clientHeaders
  let authTokenNames := (keysOf authTokenGetters).map getAuthHeaderName
  requestHeaderNames.filter (fun h => authTokenNames.contains h)

/-- The `ToolboxTool` factory from `tool.ts`: fails with a
naming-conflict error when a derived auth header name collides with a
client header name, otherwise captures the state of the callable.  (The
plaintext-HTTP `console.warn` is non-fatal and not modelled.) -/
def ToolboxTool {σ : Type} (baseUrl name description : String)
    (paramShape : List (String × ZodType)) (paramsStrict : Bool)
    (authTokenGetters : List (String × BoundValue σ))
    (requiredAuthnParams : List (String × List String))
    (requiredAuthzTokens : List String)
    (boundParams : List (String × BoundValue σ))
    (clientHeaders : List (String × BoundValue σ)) :
    Except ToolError (Tool σ) :=
  let duplicates := headerConflicts authTokenGetters clientHeaders
  if duplicates.isEmpty then
    .ok {
      baseUrl := baseUrl
      toolName := name
      description := description
      params := paramShape
      paramsStrict := paramsStrict
      authTokenGetters := authTokenGetters
      requiredAuthnParams := requiredAuthnParams
      requiredAuthzTokens := requiredAuthzTokens
      boundParams := boundParams
      clientHeaders := clientHeaders
    }
  else
    .error (.headerConflict duplicates)

/-- `paramSchema.omit({k: true for k in boundKeys})`: drops the listed
keys from the shape (zod's `omit`; strictness is preserved). -/
def omitKeys (shape : List (String × ZodType)) (ks : List String) :
    List (String × ZodType) :=
  shape.filter (fun p => !(ks.contains p.1))

/-- The `reqAuthServices` set built in the callable's outstanding-auth
check: every service of every outstanding authn param (in insertion
order), then every outstanding authz token. -/
def requiredAuthServices (requiredAuthnParams : List (String × List String))
    (requiredAuthzTokens : List String) : List String :=
  let fromParams := requiredAuthnParams.foldl
    (fun acc entry => entry.2.foldl insertUnique acc) []
  requiredAuthzTokens.foldl insertUnique fromParams

section Invocation

variable {σ : Type}

/-- `Promise.all(Object.entries(boundParams).map(resolveValue))`:
resolve each entry, a rejection rejecting the whole invocation.  (The
JS version runs concurrently; the claims only concern the joint
outcome, modelled here by left-to-right sequencing.) -/
def resolveEntries (entries : List (String × BoundValue σ)) (s : σ) :
    Except String (List (String × Value)) × σ :=
  match entries with
  | [] => (.ok [], s)
  | (k, bv) :: rest =>
    match resolveValue bv s with
    | (.ok v, s1) =>
      match resolveEntries rest s1 with
      | (.ok vs, s2) => (.ok ((k, v) :: vs), s2)
      | (.error e, s2) => (.error e, s2)
    | (.error e, s1) => (.error e, s1)

/-- The client-header resolution loop of the callable: resolve each
header value; a non-string resolution is a fatal error naming the
header. -/
def resolveClientHeaderEntries (entries : List (String × BoundValue σ)) (s : σ) :
    Except InvokeError (List (String × String)) × σ :=
  match entries with
  | [] => (.ok [], s)
  | (headerName, bv) :: rest =>
    match resolveValue bv s with
    | (.ok (.vstr v), s1) =>
      match resolveClientHeaderEntries rest s1 with
      | (.ok vs, s2) => (.ok ((headerName, v) :: vs), s2)
      | (.error e, s2) => (.error e, s2)
    | (.ok _, s1) => (.error (.headerNotString headerName), s1)
    | (.error e, s1) => (.error (.resolutionFailed e), s1)

/-- The auth-token resolution loop of the callable: resolve each
getter; a non-string token is a fatal error naming the service; the
header name is derived with `getAuthHeaderName`. -/
def resolveAuthTokenEntries (entries : List (String × BoundValue σ)) (s : σ) :
    Except InvokeError (List (String × String)) × σ :=
  match entries with
  | [] => (.ok [], s)
  | (authService, bv) :: rest =>
    match resolveValue bv s with
    | (.ok (.vstr v), s1) =>
      match resolveAuthTokenEntries rest s1 with
      | (.ok vs, s2) => (.ok ((getAuthHeaderName authService, v) :: vs), s2)
      | (.error e, s2) => (.error e, s2)
    | (.ok _, s1) => (.error (.tokenNotString authService), s1)
    | (.error e, s1) => (.error (.resolutionFailed e), s1)

/-- The invocation callable from `tool.ts` up to the issuing of the
HTTP POST: a `.ok` result is exactly the request handed to
`session.post`; every `.error` is thrown before the session is used.

Steps, as in the source: (1) fail listing the union of required
services if any authn param or authz token is outstanding; (2) validate
the arguments against the bound-key-omitted schema; (3) resolve the
bound params; (4) spread resolved bound params over the validated user
args; (5) strip `null`/`undefined` entries; (6) resolve client headers
then auth tokens, requiring strings; (7) produce the POST. -/
def invoke (t : Tool σ) (callArguments : List (String × Value)) (s : σ) :
    Except InvokeError HttpRequest × σ :=
  if (t.requiredAuthnParams.length > 0) || (t.requiredAuthzTokens.length > 0) then
    (.error (.authRequired (requiredAuthServices t.requiredAuthnParams t.requiredAuthzTokens)), s)
  else
    let boundKeys := keysOf t.boundParams
    let userParamShape := omitKeys t.params boundKeys
    match parseZ (.zobject userParamShape t.paramsStrict) (.vobj callArguments) with
    | none => (.error (.argValidationFailed t.toolName), s)
    | some validated =>
      let validatedUserArgs := match validated with
        | .vobj fields => fields
        | _ => []
      match resolveEntries t.boundParams s with
      | (.error e, s1) => (.error (.resolutionFailed e), s1)
      | (.ok resolvedBoundParams, s1) =>
        let payload := spreadKV validatedUserArgs resolvedBoundParams
        let filteredPayload := payload.filter (fun p => !(isNullish p.2))
        match resolveClientHeaderEntries t.clientHeaders s1 with
        | (.error e, s2) => (.error e, s2)
        | (.ok headerEntries, s2) =>
          match resolveAuthTokenEntries t.authTokenGetters s2 with
          | (.error e, s3) => (.error e, s3)
          | (.ok tokenEntries, s3) =>
            (.ok {
              url := t.baseUrl ++ "/api/tool/" ++ t.toolName ++ "/invoke"
              payload := filteredPayload
              headers := spreadKV (spreadKV [] headerEntries) tokenEntries
            }, s3)

end Invocation

/-! ### Derivation operations (`bindParams`, `addAuthTokenGetters`) -/

section Derivation

variable {σ : Type}

/-- The per-name loop of `bindParams`: for each new name, in order,
throw if it is already bound, then throw if it is not among the
original (pre-bound-exclusion) parameter keys. -/
def checkBindable (t : Tool σ) : List String → Except ToolError Unit
  | [] => .ok ()
  | paramName :: rest =>
    if (keysOf t.boundParams).contains paramName then
      .error (.rebindParam paramName t.toolName)
    else if !((keysOf t.params).contains paramName) then
      .error (.noSuchParam paramName t.toolName)
    else checkBindable t rest

/-- `callable.bindParams` from `tool.ts`: validate every new name, then
rebuild a tool via `ToolboxTool` with `{...this.boundParams,
...paramsToBind}` and all other state unchanged. -/
def bindParams (t : Tool σ) (paramsToBind : List (String × BoundValue σ)) :
    Except ToolError (Tool σ) := do
  checkBindable t (keysOf paramsToBind)
  let newBoundParams := spreadKV t.boundParams paramsToBind
  ToolboxTool t.baseUrl t.toolName t.description t.params t.paramsStrict
    t.authTokenGetters t.requiredAuthnParams t.requiredAuthzTokens
    newBoundParams t.clientHeaders

/-- `callable.bindParam` from `tool.ts`: bind a single name. -/
def bindParam (t : Tool σ) (paramName : String) (paramValue : BoundValue σ) :
    Except ToolError (Tool σ) :=
  bindParams t [(paramName, paramValue)]

/-- `callable.addAuthTokenGetters` from `tool.ts`: fail on a service
name already registered; fail on a derived-auth-header / client-header
collision; run `identifyAuthRequirements` against the NEW getters only
and fail naming the incoming services it did not use; otherwise rebuild
a tool with the merged getters and the recomputed outstanding
requirements. -/
def addAuthTokenGetters (t : Tool σ)
    (newAuthTokenGetters : List (String × BoundValue σ)) :
    Except ToolError (Tool σ) :=
  let existingServices := keysOf t.authTokenGetters
  let incomingServices := keysOf newAuthTokenGetters
  let duplicates := existingServices.filter (fun s => incomingServices.contains s)
  if !duplicates.isEmpty then
    .error (.dupAuthSource duplicates t.toolName)
  else
    let requestHeaderNames := keysOf t.clientHeaders
    let authTokenNames := incomingServices.map getAuthHeaderName
    let headerDuplicates := requestHeaderNames.filter (fun h => authTokenNames.contains h)
    if !headerDuplicates.isEmpty then
      .error (.headerConflict headerDuplicates)
    else
      let combinedGetters := spreadKV t.authTokenGetters newAuthTokenGetters
      let res := identifyAuthRequirements t.requiredAuthnParams t.requiredAuthzTokens
        incomingServices
      let unusedAuth := incomingServices.filter (fun s => !(res.2.2.contains s))
      if !unusedAuth.isEmpty then
        .error (.unusedAuthSource unusedAuth t.toolName)
      else
        ToolboxTool t.baseUrl t.toolName t.description t.params t.paramsStrict
          combinedGetters res.1 res.2.1 t.boundParams t.clientHeaders

/-- `callable.addAuthTokenGetter` from `tool.ts`: add a single getter. -/
def addAuthTokenGetter (t : Tool σ) (authSource : String)
    (getIdToken : BoundValue σ) : Except ToolError (Tool σ) :=
  addAuthTokenGetters t [(authSource, getIdToken)]

end Derivation

/-! ## The Client (`client.ts`)

Manifest fetching is network IO; the claims concern the logic that
runs on an already-fetched, already-validated manifest, so `loadTool`
and `loadToolset` are modelled from the point where
`#fetchAndParseManifest` has returned.  A manifest's `tools` record is
an association list of tool name to schema. -/

/-- A tool's schema from the manifest (`ZodToolSchema`). -/
structure ToolSchema where
  description : String
  parameters : List ParameterSchema
  authRequired : Option (List String) := none

/-- The errors thrown by `loadTool` / `loadToolset` after the manifest
has been fetched, carrying the dynamic parts of the thrown messages. -/
inductive ClientError where
  /-- An error thrown by the `ToolboxTool` factory. -/
  | toolError (e : ToolError)
  /-- `Tool "<name>" not found in manifest from <apiPath>.` -/
  | toolNotFound (name : String)
  /-- `Validation failed for tool '<name>': unused auth tokens ...;
  unused bound parameters ....` (thrown by `loadTool` and by
  strict-mode `loadToolset`). -/
  | validationFailed (toolName : String)
      (unusedAuth unusedBound : List String)
  /-- `Validation failed for toolset '<name>': ... could not be applied
  to any tool ...` (thrown by non-strict `loadToolset`). -/
  | toolsetValidationFailed (toolsetName : String)
      (unusedAuth unusedBound : List String)
deriving Repr

section Client

variable {σ : Type}

/-- The partition loop of `#createToolInstance`: each manifest
parameter is classified as authenticated (non-empty `authSources` —
assigned into `authParams`), bound (its name is a key of the
caller-supplied `boundParams` — the value is assigned into
`currBoundParams`), or plain (kept in `params`), in that priority
order. -/
def partitionParams (boundParams : List (String × BoundValue σ))
    (parameters : List ParameterSchema) :
    List ParameterSchema × List (String × List String) × List (String × BoundValue σ) :=
  parameters.foldl
    (fun (acc : List ParameterSchema × List (String × List String) × List (String × BoundValue σ)) p =>
      if !(p.authSources.getD []).isEmpty then
        (acc.1, setKey acc.2.1 p.name (p.authSources.getD []), acc.2.2)
      else
        match lookupKey boundParams p.name with
        | some bv => (acc.1, acc.2.1, setKey acc.2.2 p.name bv)
        | none => (acc.1 ++ [p], acc.2.1, acc.2.2))
    ([], [], [])

/-- `#createToolInstance` from `client.ts`: partition the parameters,
run `identifyAuthRequirements` with the caller's getter names as the
available services, translate the plain parameters, and build the
`ToolboxTool`; returns the tool with the used auth-service keys and
the used bound-parameter keys. -/
def createToolInstance (baseUrl : String)
    (clientHeaders : List (String × BoundValue σ))
    (toolName : String) (toolSchema : ToolSchema)
    (authTokenGetters : List (String × BoundValue σ))
    (boundParams : List (String × BoundValue σ)) :
    Except ToolError (Tool σ × List String × List String) := do
  let parts := partitionParams boundParams toolSchema.parameters
  let params := parts.1
  let authParams := parts.2.1
  let currBoundParams := parts.2.2
  let res := identifyAuthRequirements authParams (toolSchema.authRequired.getD [])
    (keysOf authTokenGetters)
  let paramZodSchema := createZodSchemaFromParams params
  let paramShape := match paramZodSchema with
    | .zobject shape _ => shape
    | _ => []
  let tool ← ToolboxTool baseUrl toolName toolSchema.description paramShape true
    authTokenGetters res.1 res.2.1 currBoundParams clientHeaders
  let usedAuthKeys := res.2.2
  let usedBoundKeys := keysOf currBoundParams
  return (tool, usedAuthKeys, usedBoundKeys)

/-- The dedup of `new Set(Object.keys(...))` used for the provided-key
sets of `loadTool` / `loadToolset`. -/
def providedKeySet (entries : List (String × BoundValue σ)) : List String :=
  (keysOf entries).foldl insertUnique []

/-- `loadTool` from `client.ts`, from the point where the manifest has
been fetched and validated: locate the named tool, build its instance,
then fail enumerating any caller-supplied auth-getter or bound-param
key the tool did not consume. -/
def loadTool (baseUrl : String) (clientHeaders : List (String × BoundValue σ))
    (manifestTools : List (String × ToolSchema)) (name : String)
    (authTokenGetters : List (String × BoundValue σ))
    (boundParams : List (String × BoundValue σ)) :
    Except ClientError (Tool σ) :=
  match lookupKey manifestTools name with
  | none => .error (.toolNotFound name)
  | some specificToolSchema =>
    match createToolInstance baseUrl clientHeaders name specificToolSchema
        authTokenGetters boundParams with
    | .error e => .error (.toolError e)
    | .ok (tool, usedAuthKeys, usedBoundKeys) =>
      let providedAuthKeys := providedKeySet authTokenGetters
      let providedBoundKeys := providedKeySet boundParams
      let unusedAuth := providedAuthKeys.filter (fun k => !(usedAuthKeys.contains k))
      let unusedBound := providedBoundKeys.filter (fun k => !(usedBoundKeys.contains k))
      if !unusedAuth.isEmpty || !unusedBound.isEmpty then
        .error (.validationFailed name unusedAuth unusedBound)
      else
        .ok tool

/-- The `for` loop of `loadToolset`: build each tool in manifest order;
in strict mode check each tool's unused keys immediately and throw at
the first offender; in non-strict mode accumulate each tool's used keys
into the overall sets. -/
def loadToolsetLoop (baseUrl : String)
    (clientHeaders : List (String × BoundValue σ))
    (authTokenGetters : List (String × BoundValue σ))
    (boundParams : List (String × BoundValue σ))
    (providedAuthKeys providedBoundKeys : List String) (strict : Bool)
    (entries : List (String × ToolSchema))
    (tools : List (Tool σ)) (overallUsedAuthKeys overallUsedBoundParams : List String) :
    Except ClientError (List (Tool σ) × List String × List String) :=
  match entries with
  | [] => .ok (tools, overallUsedAuthKeys, overallUsedBoundParams)
  | (toolName, toolSchema) :: rest =>
    match createToolInstance baseUrl clientHeaders toolName toolSchema
        authTokenGetters boundParams with
    | .error e => .error (.toolError e)
    | .ok (tool, usedAuthKeys, usedBoundKeys) =>
      if strict then
        let unusedAuth := providedAuthKeys.filter (fun k => !(usedAuthKeys.contains k))
        let unusedBound := providedBoundKeys.filter (fun k => !(usedBoundKeys.contains k))
        if !unusedAuth.isEmpty || !unusedBound.isEmpty then
          .error (.validationFailed toolName unusedAuth unusedBound)
        else
          loadToolsetLoop baseUrl clientHeaders authTokenGetters boundParams
            providedAuthKeys providedBoundKeys strict rest (tools ++ [tool])
            overallUsedAuthKeys overallUsedBoundParams
      else
        loadToolsetLoop baseUrl clientHeaders authTokenGetters boundParams
          providedAuthKeys providedBoundKeys strict rest (tools ++ [tool])
          (usedAuthKeys.foldl insertUnique overallUsedAuthKeys)
          (usedBoundKeys.foldl insertUnique overallUsedBoundParams)

/-- `loadToolset` from `client.ts`, from the point where the manifest
has been fetched and validated: build every tool; in strict mode any
single tool with unused provided keys throws immediately naming that
tool; in non-strict mode only keys used by no tool at all produce the
final toolset-level error. -/
def loadToolset (baseUrl : String)
    (clientHeaders : List (String × BoundValue σ))
    (manifestTools : List (String × ToolSchema)) (toolsetName : String)
    (authTokenGetters : List (String × BoundValue σ))
    (boundParams : List (String × BoundValue σ)) (strict : Bool) :
    Except ClientError (List (Tool σ)) :=
  let providedAuthKeys := providedKeySet authTokenGetters
  let providedBoundKeys := providedKeySet boundParams
  match loadToolsetLoop baseUrl clientHeaders authTokenGetters boundParams
      providedAuthKeys providedBoundKeys strict manifestTools [] [] [] with
  | .error e => .error e
  | .ok (tools, overallUsedAuthKeys, overallUsedBoundParams) =>
    if strict then
      .ok tools
    else
      let unusedAuth := providedAuthKeys.filter (fun k => !(overallUsedAuthKeys.contains k))
      let unusedBound := providedBoundKeys.filter (fun k => !(overallUsedBoundParams.contains k))
      if !unusedAuth.isEmpty || !unusedBound.isEmpty then
        .error (.toolsetValidationFailed toolsetName unusedAuth unusedBound)
      else
        .ok tools

end Client

/-! ## Shared lemmas on the JS-record model -/

section RecordLemmas

variable {α : Type}

theorem contains_iff_mem (l : List String) (a : String) :
    l.contains a = true ↔ a ∈ l := List.elem_iff

theorem keysOf_setKey_eq (fs : List (String × α)) (k : String) (v : α) :
    keysOf (setKey fs k v) =
      if fs.any (fun p => p.1 == k) then keysOf fs else keysOf fs ++ [k] := by
  simp only [setKey, keysOf]
  split
  · rw [List.map_map]
    refine List.map_congr_left ?_
    intro p _
    by_cases hpk : p.1 = k
    · simp [hpk]
    · simp [hpk]
  · simp

theorem keysOf_setKey (fs : List (String × α)) (k : String) (v : α) (k2 : String) :
    k2 ∈ keysOf (setKey fs k v) ↔ k2 ∈ keysOf fs ∨ k2 = k := by
  rw [keysOf_setKey_eq]
  split
  · rename_i h
    simp only [List.any_eq_true, beq_iff_eq] at h
    obtain ⟨p, hp, hpk⟩ := h
    constructor
    · exact Or.inl
    · rintro (hk | rfl)
      · exact hk
      · exact hpk ▸ List.mem_map_of_mem _ hp
  · simp

theorem keysOf_spreadKV (base extra : List (String × α)) (k : String) :
    k ∈ keysOf (spreadKV base extra) ↔ k ∈ keysOf base ∨ k ∈ keysOf extra := by
  induction extra generalizing base with
  | nil => simp [spreadKV, keysOf]
  | cons p rest ih =>
      simp only [spreadKV, List.foldl_cons] at *
      rw [ih (setKey base p.1 p.2), keysOf_setKey]
      simp only [keysOf, List.map_cons, List.mem_cons]
      tauto

end RecordLemmas

/-! ## Lemmas about `identifyAuthRequirements` -/

section IdentifyAuthSpec

/-- The first fold of `identifyAuthRequirements` keeps exactly the
entries whose service list does not intersect the available set. -/
theorem identifyAuth_step1_fst (entries : List (String × List String))
    (avail : List String) (acc1 : List (String × List String)) (acc2 : List String) :
    (entries.foldl
      (fun (acc : List (String × List String) × List String) entry =>
        let matched := entry.2.filter (fun s => avail.contains s)
        if matched.isEmpty then (acc.1 ++ [entry], acc.2)
        else (acc.1, matched.foldl insertUnique acc.2))
      (acc1, acc2)).1 =
    acc1 ++ entries.filter (fun entry => (entry.2.filter (fun s => avail.contains s)).isEmpty) := by
  induction entries generalizing acc1 acc2 with
  | nil => simp
  | cons e rest ih =>
      simp only [List.foldl_cons]
      by_cases h : (e.2.filter (fun s => avail.contains s)).isEmpty
      · rw [if_pos h, ih]
        simp only [List.filter_cons]
        rw [if_pos h]
        simp
      · rw [if_neg h, ih]
        simp only [List.filter_cons]
        rw [if_neg h]

/-- Membership in the used-service set after the first fold of
`identifyAuthRequirements`. -/
theorem identifyAuth_step1_snd (entries : List (String × List String))
    (avail : List String) (acc1 : List (String × List String)) (acc2 : List String)
    (x : String) :
    (x ∈ (entries.foldl
      (fun (acc : List (String × List String) × List String) entry =>
        let matched := entry.2.filter (fun s => avail.contains s)
        if matched.isEmpty then (acc.1 ++ [entry], acc.2)
        else (acc.1, matched.foldl insertUnique acc.2))
      (acc1, acc2)).2) ↔
    (x ∈ acc2 ∨ ∃ e ∈ entries, x ∈ e.2 ∧ x ∈ avail) := by
  induction entries generalizing acc1 acc2 with
  | nil => simp
  | cons e rest ih =>
      simp only [List.foldl_cons]
      by_cases h : (e.2.filter (fun s => avail.contains s)).isEmpty
      · rw [if_pos h, ih]
        rw [List.isEmpty_iff, List.filter_eq_nil_iff] at h
        constructor
        · rintro (hx | ⟨e2, he2, hx⟩)
          · exact Or.inl hx
          · exact Or.inr ⟨e2, List.mem_cons_of_mem _ he2, hx⟩
        · rintro (hx | ⟨e2, he2, hxe, hxa⟩)
          · exact Or.inl hx
          · rcases List.mem_cons.mp he2 with rfl | he2
            · exact absurd ((contains_iff_mem avail x).mpr hxa) (by simpa using h x hxe)
            · exact Or.inr ⟨e2, he2, hxe, hxa⟩
      · rw [if_neg h, ih, mem_foldl_insertUnique]
        constructor
        · rintro ((hx | hx) | ⟨e2, he2, hxm⟩)
          · exact Or.inl hx
          · rw [List.mem_filter, contains_iff_mem] at hx
            exact Or.inr ⟨e, List.mem_cons_self .., hx⟩
          · exact Or.inr ⟨e2, List.mem_cons_of_mem _ he2, hxm⟩
        · rintro (hx | ⟨e2, he2, hxe, hxa⟩)
          · exact Or.inl (Or.inl hx)
          · rcases List.mem_cons.mp he2 with rfl | he2
            · refine Or.inl (Or.inr ?_)
              rw [List.mem_filter, contains_iff_mem]
              exact ⟨hxe, hxa⟩
            · exact Or.inr ⟨e2, he2, hxe, hxa⟩

/-- The second fold of `identifyAuthRequirements` keeps exactly the
tokens outside the available set. -/
theorem identifyAuth_step2_fst (tokens avail : List String)
    (acc1 acc2 : List String) :
    (tokens.foldl
      (fun (acc : List String × List String) token =>
        if avail.contains token then (acc.1, insertUnique acc.2 token)
        else (acc.1 ++ [token], acc.2))
      (acc1, acc2)).1 =
    acc1 ++ tokens.filter (fun token => !(avail.contains token)) := by
  induction tokens generalizing acc1 acc2 with
  | nil => simp
  | cons tk rest ih =>
      simp only [List.foldl_cons]
      by_cases h : avail.contains tk
      · have hm : tk ∈ avail := (contains_iff_mem avail tk).mp h
        rw [if_pos h, ih]
        simp only [List.filter_cons]
        rw [if_neg (by simp [hm])]
      · have hm : tk ∉ avail := fun hx => h ((contains_iff_mem avail tk).mpr hx)
        rw [if_neg h, ih]
        simp only [List.filter_cons]
        rw [if_pos (by simp [hm])]
        simp

/-- Membership in the used-service set after the second fold of
`identifyAuthRequirements`. -/
theorem identifyAuth_step2_snd (tokens avail : List String)
    (acc1 acc2 : List String) (x : String) :
    (x ∈ (tokens.foldl
      (fun (acc : List String × List String) token =>
        if avail.contains token then (acc.1, insertUnique acc.2 token)
        else (acc.1 ++ [token], acc.2))
      (acc1, acc2)).2) ↔
    (x ∈ acc2 ∨ (x ∈ tokens ∧ x ∈ avail)) := by
  induction tokens generalizing acc1 acc2 with
  | nil => simp
  | cons tk rest ih =>
      simp only [List.foldl_cons]
      by_cases h : avail.contains tk
      · rw [if_pos h, ih, mem_insertUnique]
        have ha := (contains_iff_mem avail tk).mp h
        constructor
        · rintro ((hx | rfl) | ⟨hxt, hxa⟩)
          · exact Or.inl hx
          · exact Or.inr ⟨List.mem_cons_self .., ha⟩
          · exact Or.inr ⟨List.mem_cons_of_mem _ hxt, hxa⟩
        · rintro (hx | ⟨hxt, hxa⟩)
          · exact Or.inl (Or.inl hx)
          · rcases List.mem_cons.mp hxt with rfl | hxt
            · exact Or.inl (Or.inr rfl)
            · exact Or.inr ⟨hxt, hxa⟩
      · rw [if_neg h, ih]
        have hna : x = tk → x ∉ avail := by
          rintro rfl hxa
          exact h ((contains_iff_mem avail x).mpr hxa)
        constructor
        · rintro (hx | ⟨hxt, hxa⟩)
          · exact Or.inl hx
          · exact Or.inr ⟨List.mem_cons_of_mem _ hxt, hxa⟩
        · rintro (hx | ⟨hxt, hxa⟩)
          · exact Or.inl hx
          · rcases List.mem_cons.mp hxt with rfl | hxt
            · exact absurd hxa (hna rfl)
            · exact Or.inr ⟨hxt, hxa⟩

/-- The remaining-authn-params component of `identifyAuthRequirements`
is the filter of the input map over empty intersection with the
available set. -/
theorem identifyAuthRequirements_fst (reqAuthnParams : List (String × List String))
    (reqAuthzTokens availableServices : List String) :
    (identifyAuthRequirements reqAuthnParams reqAuthzTokens availableServices).1 =
    reqAuthnParams.filter
      (fun entry => (entry.2.filter (fun s => availableServices.contains s)).isEmpty) := by
  simp only [identifyAuthRequirements]
  rw [identifyAuth_step1_fst]
  simp

/-- The remaining-authz-tokens component of `identifyAuthRequirements`
is the filter of the input tokens over non-availability. -/
theorem identifyAuthRequirements_snd_fst (reqAuthnParams : List (String × List String))
    (reqAuthzTokens availableServices : List String) :
    (identifyAuthRequirements reqAuthnParams reqAuthzTokens availableServices).2.1 =
    reqAuthzTokens.filter (fun token => !(availableServices.contains token)) := by
  simp only [identifyAuthRequirements]
  rw [identifyAuth_step2_fst]
  simp

/-- Membership in the used-services component of
`identifyAuthRequirements`. -/
theorem identifyAuthRequirements_used_mem (reqAuthnParams : List (String × List String))
    (reqAuthzTokens availableServices : List String) (x : String) :
    (x ∈ (identifyAuthRequirements reqAuthnParams reqAuthzTokens availableServices).2.2) ↔
    ((∃ e ∈ reqAuthnParams, x ∈ e.2 ∧ x ∈ availableServices) ∨
     (x ∈ reqAuthzTokens ∧ x ∈ availableServices)) := by
  simp only [identifyAuthRequirements]
  rw [identifyAuth_step2_snd, identifyAuth_step1_snd]
  simp

end IdentifyAuthSpec

/-! ## Claim C5 — `identifyAuthRequirements` output characterization -/

/-- C5: for every requiredAuthnParams map, requiredAuthzTokens list and
available-service set, `identifyAuthRequirements` returns (1) exactly
the parameters whose acceptable-service list misses the available set,
each with its full original service list; (2) exactly the tokens not in
the available set; (3) a used-services set holding every available
service appearing in some satisfied parameter's acceptable list (all
matches, not just one) plus every satisfied authz token. -/
theorem identifyAuthRequirements_spec
    (reqAuthnParams : List (String × List String))
    (reqAuthzTokens availableServices : List String) :
    ((identifyAuthRequirements reqAuthnParams reqAuthzTokens availableServices).1 =
      reqAuthnParams.filter
        (fun entry => (entry.2.filter (fun s => availableServices.contains s)).isEmpty)) ∧
    ((identifyAuthRequirements reqAuthnParams reqAuthzTokens availableServices).2.1 =
      reqAuthzTokens.filter (fun token => !(availableServices.contains token))) ∧
    (∀ x, (x ∈ (identifyAuthRequirements reqAuthnParams reqAuthzTokens availableServices).2.2) ↔
      ((∃ e ∈ reqAuthnParams, x ∈ e.2 ∧ x ∈ availableServices) ∨
       (x ∈ reqAuthzTokens ∧ x ∈ availableServices))) :=
  ⟨identifyAuthRequirements_fst reqAuthnParams reqAuthzTokens availableServices,
   identifyAuthRequirements_snd_fst reqAuthnParams reqAuthzTokens availableServices,
   identifyAuthRequirements_used_mem reqAuthnParams reqAuthzTokens availableServices⟩

/-! ## Claim C9 — the Value Resolver -/

/-- C9: `resolveValue` returns every non-callable value unchanged
(including null and undefined); it invokes a callable with no arguments
on the current state every time — never caching, as the stateful
counter below shows by producing two different values on two
consecutive resolutions — and it forwards the callable's outcome
(value or error) unchanged. -/
theorem resolveValue_spec :
    (∀ (σ : Type) (v : Value) (s : σ), resolveValue (.lit v) s = (.ok v, s)) ∧
    (∀ (σ : Type) (f : σ → Except String Value × σ) (s : σ),
      resolveValue (.fn f) s = f s) ∧
    ((resolveValue (.fn (fun n => (.ok (.vnum n true), n + 1))) 0).1 ≠
     (resolveValue (.fn (fun n => (.ok (.vnum n true), n + 1)))
       (resolveValue (.fn (fun (n : Int) => (.ok (.vnum n true), n + 1))) 0).2).1) := by
  refine ⟨fun σ v s => rfl, fun σ f s => rfl, ?_⟩
  simp [resolveValue]

/-! ## Claim C2 — invocation with outstanding auth requirements -/

/-- Membership in the double fold collecting all services of all
outstanding authn params. -/
theorem mem_foldl_insertUnique_entries (entries : List (String × List String))
    (init : List String) (x : String) :
    (x ∈ entries.foldl (fun acc entry => entry.2.foldl insertUnique acc) init) ↔
    (x ∈ init ∨ ∃ e ∈ entries, x ∈ e.2) := by
  induction entries generalizing init with
  | nil => simp
  | cons e rest ih =>
      simp only [List.foldl_cons, ih, mem_foldl_insertUnique, List.mem_cons]
      constructor
      · rintro ((hx | hx) | ⟨e2, he2, hx⟩)
        · exact Or.inl hx
        · exact Or.inr ⟨e, Or.inl rfl, hx⟩
        · exact Or.inr ⟨e2, Or.inr he2, hx⟩
      · rintro (hx | ⟨e2, rfl | he2, hx⟩)
        · exact Or.inl (Or.inl hx)
        · exact Or.inl (Or.inr hx)
        · exact Or.inr ⟨e2, he2, hx⟩

/-- The union-of-services error payload contains a service iff it is a
service of some outstanding authn param or an outstanding authz
token. -/
theorem mem_requiredAuthServices (requiredAuthnParams : List (String × List String))
    (requiredAuthzTokens : List String) (x : String) :
    (x ∈ requiredAuthServices requiredAuthnParams requiredAuthzTokens) ↔
    ((∃ e ∈ requiredAuthnParams, x ∈ e.2) ∨ x ∈ requiredAuthzTokens) := by
  simp only [requiredAuthServices]
  rw [mem_foldl_insertUnique, mem_foldl_insertUnique_entries]
  simp only [List.not_mem_nil, false_or]

/-- C2: invoking a Tool Instance whose remaining authn-param map or
authz-token list is non-empty fails, with an error carrying the union
of all still-required service names, and no HTTP POST is issued: the
result is an `Except.error`, never a request, and the resolution state
is untouched. -/
theorem invoke_outstandingAuth_fails {σ : Type} (t : Tool σ)
    (callArguments : List (String × Value)) (s : σ)
    (h : t.requiredAuthnParams ≠ [] ∨ t.requiredAuthzTokens ≠ []) :
    (invoke t callArguments s =
      (.error (.authRequired
        (requiredAuthServices t.requiredAuthnParams t.requiredAuthzTokens)), s)) ∧
    (∀ x, (x ∈ requiredAuthServices t.requiredAuthnParams t.requiredAuthzTokens) ↔
      ((∃ e ∈ t.requiredAuthnParams, x ∈ e.2) ∨ x ∈ t.requiredAuthzTokens)) := by
  have hc : (decide (t.requiredAuthnParams.length > 0) ||
      decide (t.requiredAuthzTokens.length > 0)) = true := by
    rcases h with h | h
    · simp [List.length_pos.mpr h]
    · simp [List.length_pos.mpr h]
  constructor
  · rw [invoke, if_pos hc]
  · exact fun x => mem_requiredAuthServices _ _ x

/-- An incomplete tool used to witness C2: one outstanding authz
token, nothing else. -/
def sampleIncompleteTool : Tool Unit :=
  { baseUrl := "http://localhost:5000"
    toolName := "get-n-rows"
    description := "sample"
    params := []
    paramsStrict := true
    authTokenGetters := []
    requiredAuthnParams := []
    requiredAuthzTokens := ["my-auth-service"]
    boundParams := []
    clientHeaders := [] }

/-- Witness for C2 at a concrete incomplete tool. -/
theorem invoke_outstandingAuth_fails_witness :
    (sampleIncompleteTool.requiredAuthnParams ≠ [] ∨
      sampleIncompleteTool.requiredAuthzTokens ≠ []) ∧
    ((invoke sampleIncompleteTool [] () =
      (.error (.authRequired
        (requiredAuthServices sampleIncompleteTool.requiredAuthnParams
          sampleIncompleteTool.requiredAuthzTokens)), ())) ∧
     (∀ x, (x ∈ requiredAuthServices sampleIncompleteTool.requiredAuthnParams
          sampleIncompleteTool.requiredAuthzTokens) ↔
        ((∃ e ∈ sampleIncompleteTool.requiredAuthnParams, x ∈ e.2) ∨
          x ∈ sampleIncompleteTool.requiredAuthzTokens))) :=
  ⟨Or.inr (by simp [sampleIncompleteTool]),
   invoke_outstandingAuth_fails sampleIncompleteTool [] ()
     (Or.inr (by simp [sampleIncompleteTool]))⟩

/-! ## Claim C8 — `required === false` means nullish -/

/-- Every base (non-nullish) translated validator rejects both `null`
and `undefined`. -/
theorem buildZod_base_rejects_nullish (t : TypeSchema) :
    parseZ (buildZodShapeFromTypeSchema t) .vnull = none ∧
    parseZ (buildZodShapeFromTypeSchema t) .vundef = none := by
  cases t with
  | tstring => simp [buildZodShapeFromTypeSchema, parseZ]
  | tinteger => simp [buildZodShapeFromTypeSchema, parseZ]
  | tfloat => simp [buildZodShapeFromTypeSchema, parseZ]
  | tboolean => simp [buildZodShapeFromTypeSchema, parseZ]
  | tarray items => simp [buildZodShapeFromTypeSchema, parseZ]
  | tobject ap =>
      rcases ap with _ | b | t2
      · simp [buildZodShapeFromTypeSchema, parseZ]
      · rcases b with _ | _ <;> simp [buildZodShapeFromTypeSchema, parseZ]
      · simp [buildZodShapeFromTypeSchema, parseZ]

/-- C8: for every parameter, the validator produced by
`createZodSchemaFromParams` accepts `null`, `undefined` and omission of
the field when `required === false` (the `.nullish()` branch), and
rejects all three when `required` is absent or `true`. -/
theorem requiredFalse_nullish_spec (p : ParameterSchema) :
    (p.required = some false →
      (parseZ (createZodSchemaFromParams [p]) (.vobj []) = some (.vobj []) ∧
       parseZ (createZodSchemaFromParams [p]) (.vobj [(p.name, .vnull)]) =
         some (.vobj [(p.name, .vnull)]) ∧
       parseZ (createZodSchemaFromParams [p]) (.vobj [(p.name, .vundef)]) =
         some (.vobj [(p.name, .vundef)]))) ∧
    ((p.required = none ∨ p.required = some true) →
      (parseZ (createZodSchemaFromParams [p]) (.vobj []) = none ∧
       parseZ (createZodSchemaFromParams [p]) (.vobj [(p.name, .vnull)]) = none ∧
       parseZ (createZodSchemaFromParams [p]) (.vobj [(p.name, .vundef)]) = none)) := by
  constructor
  · intro hreq
    refine ⟨?_, ?_, ?_⟩ <;>
      simp [createZodSchemaFromParams, buildZodShapeFromParam, hreq, setKey,
        parseZ, parseShape, lookupKey, isUndef]
  · intro hreq
    have hb := buildZod_base_rejects_nullish p.typeSchema
    have hne : ¬(p.required = some false) := by
      rcases hreq with h | h <;> simp [h]
    refine ⟨?_, ?_, ?_⟩ <;>
      simp [createZodSchemaFromParams, buildZodShapeFromParam, if_neg hne, setKey,
        parseZ, parseShape, lookupKey, isUndef, hb.1, hb.2]

/-- A `required: false` string parameter, for the C8 witness. -/
def sampleOptionalParam : ParameterSchema :=
  { name := "limit", description := "max rows", authSources := none,
    required := some false, typeSchema := .tstring }

/-- A string parameter with `required` absent, for the C8 witness. -/
def sampleMandatoryParam : ParameterSchema :=
  { name := "limit", description := "max rows", authSources := none,
    required := none, typeSchema := .tstring }

/-- Witness for C8 at a concrete optional and a concrete mandatory
parameter. -/
theorem requiredFalse_nullish_spec_witness :
    ((parseZ (createZodSchemaFromParams [sampleOptionalParam]) (.vobj []) =
        some (.vobj []) ∧
      parseZ (createZodSchemaFromParams [sampleOptionalParam])
          (.vobj [(sampleOptionalParam.name, .vnull)]) =
        some (.vobj [(sampleOptionalParam.name, .vnull)]) ∧
      parseZ (createZodSchemaFromParams [sampleOptionalParam])
          (.vobj [(sampleOptionalParam.name, .vundef)]) =
        some (.vobj [(sampleOptionalParam.name, .vundef)])) ∧
     (parseZ (createZodSchemaFromParams [sampleMandatoryParam]) (.vobj []) = none ∧
      parseZ (createZodSchemaFromParams [sampleMandatoryParam])
          (.vobj [(sampleMandatoryParam.name, .vnull)]) = none ∧
      parseZ (createZodSchemaFromParams [sampleMandatoryParam])
          (.vobj [(sampleMandatoryParam.name, .vundef)]) = none)) :=
  ⟨(requiredFalse_nullish_spec sampleOptionalParam).1 rfl,
   (requiredFalse_nullish_spec sampleMandatoryParam).2 (Or.inl rfl)⟩

/-! ## Claim C1 — `additionalProperties: false`

The source translates `additionalProperties === false` to
`z.object({})` WITHOUT `.strict()`.  A zod object in its default strip
mode accepts any input object and silently drops its unknown keys, so
such a parameter does not reject inputs with properties — it accepts
them and strips every property.  The claim as stated is refuted by the
counterexample below; the amended statement (accept and strip) is
proved. -/

/-- An `object` parameter with `additionalProperties: false`, used for
the C1 counterexample. -/
def sampleClosedObjectParam : ParameterSchema :=
  { name := "config", description := "cfg", authSources := none,
    required := none, typeSchema := .tobject (some (Sum.inl false)) }

/-- C1 counterexample: the validator for a parameter whose schema has
`additionalProperties === false` ACCEPTS an input object carrying a
property (the claim says every such input is rejected); zod strips the
unknown key instead. -/
theorem addPropsFalse_accepts_counterexample :
    parseZ (createZodSchemaFromParams [sampleClosedObjectParam])
        (.vobj [("config", .vobj [("extra", .vstr "x")])]) =
      some (.vobj [("config", .vobj [])]) := by
  simp [sampleClosedObjectParam, createZodSchemaFromParams, buildZodShapeFromParam,
    buildZodShapeFromTypeSchema, setKey, parseZ, parseShape, lookupKey, isUndef]

/-- C1 amended: for every parameter of type `object` whose schema has
`additionalProperties === false`, the translated validator accepts
every input object and strips all of its properties, yielding the
empty object. -/
theorem addPropsFalse_strips_all_properties (fields : List (String × Value)) :
    parseZ (buildZodShapeFromTypeSchema (.tobject (some (Sum.inl false))))
        (.vobj fields) = some (.vobj []) := by
  simp [buildZodShapeFromTypeSchema, parseZ, parseShape]

/-! ## Claim C6 — `bindParams` / `bindParam` -/

section BindParamsSpec

variable {σ : Type}

/-- If some new name is already bound or absent from the original
parameter set, the `bindParams` name check throws. -/
theorem checkBindable_error (t : Tool σ) (ks : List String)
    (h : ∃ k ∈ ks, k ∈ keysOf t.boundParams ∨ k ∉ keysOf t.params) :
    ∃ e, checkBindable t ks = .error e := by
  induction ks with
  | nil => simp at h
  | cons k0 rest ih =>
      rw [checkBindable]
      by_cases hb : k0 ∈ keysOf t.boundParams
      · rw [if_pos ((contains_iff_mem _ k0).mpr hb)]
        exact ⟨_, rfl⟩
      · rw [if_neg (fun hc => hb ((contains_iff_mem _ k0).mp hc))]
        by_cases hp : k0 ∈ keysOf t.params
        · rw [if_neg (by simp [hp])]
          refine ih ?_
          obtain ⟨k, hk, hviol⟩ := h
          rcases List.mem_cons.mp hk with rfl | hk
          · rcases hviol with hviol | hviol
            · exact absurd hviol hb
            · exact absurd hp hviol
          · exact ⟨k, hk, hviol⟩
        · rw [if_pos (by simp [hp])]
          exact ⟨_, rfl⟩

/-- If every new name is unbound and present in the original parameter
set, the `bindParams` name check passes. -/
theorem checkBindable_ok (t : Tool σ) (ks : List String)
    (h : ∀ k ∈ ks, k ∉ keysOf t.boundParams ∧ k ∈ keysOf t.params) :
    checkBindable t ks = .ok () := by
  induction ks with
  | nil => rfl
  | cons k0 rest ih =>
      obtain ⟨hb, hp⟩ := h k0 (List.mem_cons_self ..)
      rw [checkBindable]
      rw [if_neg (fun hc => hb ((contains_iff_mem _ k0).mp hc))]
      rw [if_neg (by simp [hp])]
      exact ih (fun k hk => h k (List.mem_cons_of_mem _ hk))

/-- C6: `bindParams` fails whenever some new name is already present in
the bound-parameter map (regardless of the value being bound) or is
absent from the original pre-bound-exclusion parameter set; otherwise
it returns a NEW Tool Instance whose bound-parameter map is the union
of the old map and the new bindings, every other field copied
unchanged (the embedding is purely functional, so the original
instance itself is untouched).  `bindParam` is the single-binding
special case. -/
theorem bindParams_spec (t : Tool σ) (paramsToBind : List (String × BoundValue σ))
    (hwf : headerConflicts t.authTokenGetters t.clientHeaders = []) :
    ((∃ k ∈ keysOf paramsToBind, k ∈ keysOf t.boundParams ∨ k ∉ keysOf t.params) →
      ∃ e, bindParams t paramsToBind = .error e) ∧
    ((∀ k ∈ keysOf paramsToBind, k ∉ keysOf t.boundParams ∧ k ∈ keysOf t.params) →
      ∃ t2, bindParams t paramsToBind = .ok t2 ∧
        t2.boundParams = spreadKV t.boundParams paramsToBind ∧
        (∀ k, k ∈ keysOf t2.boundParams ↔
          k ∈ keysOf t.boundParams ∨ k ∈ keysOf paramsToBind) ∧
        t2.baseUrl = t.baseUrl ∧ t2.toolName = t.toolName ∧
        t2.description = t.description ∧ t2.params = t.params ∧
        t2.paramsStrict = t.paramsStrict ∧
        t2.authTokenGetters = t.authTokenGetters ∧
        t2.requiredAuthnParams = t.requiredAuthnParams ∧
        t2.requiredAuthzTokens = t.requiredAuthzTokens ∧
        t2.clientHeaders = t.clientHeaders) ∧
    (∀ (n : String) (v : BoundValue σ), bindParam t n v = bindParams t [(n, v)]) := by
  refine ⟨?_, ?_, fun n v => rfl⟩
  · intro h
    obtain ⟨e, he⟩ := checkBindable_error t (keysOf paramsToBind) h
    refine ⟨e, ?_⟩
    rw [bindParams, he]
    rfl
  · intro h
    have hok := checkBindable_ok t (keysOf paramsToBind) h
    refine ⟨{ t with boundParams := spreadKV t.boundParams paramsToBind }, ?_, rfl,
      fun k => keysOf_spreadKV _ _ k, rfl, rfl, rfl, rfl, rfl, rfl, rfl, rfl, rfl⟩
    rw [bindParams, hok]
    show ToolboxTool t.baseUrl t.toolName t.description t.params t.paramsStrict
      t.authTokenGetters t.requiredAuthnParams t.requiredAuthzTokens
      (spreadKV t.boundParams paramsToBind) t.clientHeaders = _
    simp [ToolboxTool, hwf]

end BindParamsSpec

/-- A tool with one parameter already bound, for the C6 witness. -/
def sampleBoundTool : Tool Unit :=
  { baseUrl := "http://localhost:5000"
    toolName := "get-n-rows"
    description := "sample"
    params := [("num_rows", .zstring)]
    paramsStrict := true
    authTokenGetters := []
    requiredAuthnParams := []
    requiredAuthzTokens := []
    boundParams := [("num_rows", .lit (.vstr "3"))]
    clientHeaders := [] }

/-- Witness for C6: re-binding `num_rows` (with a different value) is
rejected. -/
theorem bindParams_spec_witness :
    (headerConflicts sampleBoundTool.authTokenGetters sampleBoundTool.clientHeaders = []) ∧
    (∃ e, bindParams sampleBoundTool [("num_rows", BoundValue.lit (.vstr "4"))] =
      .error e) :=
  ⟨rfl,
   (bindParams_spec sampleBoundTool [("num_rows", BoundValue.lit (.vstr "4"))] rfl).1
     ⟨"num_rows", by simp [keysOf], Or.inl (by simp [sampleBoundTool, keysOf])⟩⟩

/-! ## Claim C7 — `addAuthTokenGetters` / `addAuthTokenGetter` -/

section AddAuthSpec

variable {σ : Type}

theorem bnot_isEmpty_of_ne_nil {α : Type} (l : List α) (h : l ≠ []) :
    (!l.isEmpty) = true := by
  simp [List.isEmpty_iff, h]

theorem not_bnot_isEmpty_of_nil {α : Type} (l : List α) (h : l = []) :
    ¬((!l.isEmpty) = true) := by
  simp [h]

/-- Merging collision-free new getters into a collision-free tool keeps
the construction-time header check clean. -/
theorem headerConflicts_spread_nil
    (old new headers : List (String × BoundValue σ))
    (h1 : headerConflicts old headers = [])
    (h2 : (keysOf headers).filter
      (fun h => ((keysOf new).map getAuthHeaderName).contains h) = []) :
    headerConflicts (spreadKV old new) headers = [] := by
  simp only [headerConflicts] at h1 ⊢
  rw [List.filter_eq_nil_iff] at h1 h2 ⊢
  intro hd hdmem hcon
  rw [contains_iff_mem, List.mem_map] at hcon
  obtain ⟨s, hs, rfl⟩ := hcon
  rcases (keysOf_spreadKV old new s).mp hs with hso | hsn
  · exact h1 _ hdmem (by
      rw [contains_iff_mem, List.mem_map]
      exact ⟨s, hso, rfl⟩)
  · exact h2 _ hdmem (by
      rw [contains_iff_mem, List.mem_map]
      exact ⟨s, hsn, rfl⟩)

/-- C7: `addAuthTokenGetters` fails on an already-registered service
name (with the duplicate list), then on a derived-auth-header /
client-header collision (with the colliding header list), then — when
some incoming service is matched by none of the outstanding authn
params or authz tokens — with the list of unused services; otherwise
it returns a NEW Tool Instance with the merged getter map and the
outstanding requirements recomputed by `identifyAuthRequirements`.
The final conjunct characterizes "unused": an incoming service that
appears in no outstanding authn param's service list and is not an
outstanding authz token. -/
theorem addAuthTokenGetters_spec (t : Tool σ)
    (newAuthTokenGetters : List (String × BoundValue σ))
    (hwf : headerConflicts t.authTokenGetters t.clientHeaders = []) :
    (((keysOf t.authTokenGetters).filter
        (fun s => (keysOf newAuthTokenGetters).contains s) ≠ []) →
      addAuthTokenGetters t newAuthTokenGetters =
        .error (.dupAuthSource
          ((keysOf t.authTokenGetters).filter
            (fun s => (keysOf newAuthTokenGetters).contains s)) t.toolName)) ∧
    (((keysOf t.authTokenGetters).filter
        (fun s => (keysOf newAuthTokenGetters).contains s) = []) →
     ((keysOf t.clientHeaders).filter
        (fun h => ((keysOf newAuthTokenGetters).map getAuthHeaderName).contains h) ≠ []) →
      addAuthTokenGetters t newAuthTokenGetters =
        .error (.headerConflict
          ((keysOf t.clientHeaders).filter
            (fun h => ((keysOf newAuthTokenGetters).map getAuthHeaderName).contains h)))) ∧
    (((keysOf t.authTokenGetters).filter
        (fun s => (keysOf newAuthTokenGetters).contains s) = []) →
     ((keysOf t.clientHeaders).filter
        (fun h => ((keysOf newAuthTokenGetters).map getAuthHeaderName).contains h) = []) →
     ((keysOf newAuthTokenGetters).filter
        (fun s => !((identifyAuthRequirements t.requiredAuthnParams
          t.requiredAuthzTokens (keysOf newAuthTokenGetters)).2.2.contains s)) ≠ []) →
      addAuthTokenGetters t newAuthTokenGetters =
        .error (.unusedAuthSource
          ((keysOf newAuthTokenGetters).filter
            (fun s => !((identifyAuthRequirements t.requiredAuthnParams
              t.requiredAuthzTokens (keysOf newAuthTokenGetters)).2.2.contains s)))
          t.toolName)) ∧
    (((keysOf t.authTokenGetters).filter
        (fun s => (keysOf newAuthTokenGetters).contains s) = []) →
     ((keysOf t.clientHeaders).filter
        (fun h => ((keysOf newAuthTokenGetters).map getAuthHeaderName).contains h) = []) →
     ((keysOf newAuthTokenGetters).filter
        (fun s => !((identifyAuthRequirements t.requiredAuthnParams
          t.requiredAuthzTokens (keysOf newAuthTokenGetters)).2.2.contains s)) = []) →
      ∃ t2, addAuthTokenGetters t newAuthTokenGetters = .ok t2 ∧
        t2.authTokenGetters = spreadKV t.authTokenGetters newAuthTokenGetters ∧
        t2.requiredAuthnParams = (identifyAuthRequirements t.requiredAuthnParams
          t.requiredAuthzTokens (keysOf newAuthTokenGetters)).1 ∧
        t2.requiredAuthzTokens = (identifyAuthRequirements t.requiredAuthnParams
          t.requiredAuthzTokens (keysOf newAuthTokenGetters)).2.1 ∧
        t2.baseUrl = t.baseUrl ∧ t2.toolName = t.toolName ∧
        t2.description = t.description ∧ t2.params = t.params ∧
        t2.paramsStrict = t.paramsStrict ∧ t2.boundParams = t.boundParams ∧
        t2.clientHeaders = t.clientHeaders) ∧
    (∀ s, (s ∈ (keysOf newAuthTokenGetters).filter
        (fun x => !((identifyAuthRequirements t.requiredAuthnParams
          t.requiredAuthzTokens (keysOf newAuthTokenGetters)).2.2.contains x))) ↔
      (s ∈ keysOf newAuthTokenGetters ∧
        ¬(∃ e ∈ t.requiredAuthnParams, s ∈ e.2) ∧ s ∉ t.requiredAuthzTokens)) := by
  refine ⟨?_, ?_, ?_, ?_, ?_⟩
  · intro hdup
    rw [addAuthTokenGetters, if_pos (bnot_isEmpty_of_ne_nil _ hdup)]
  · intro hdup hhd
    rw [addAuthTokenGetters, if_neg (not_bnot_isEmpty_of_nil _ hdup),
      if_pos (bnot_isEmpty_of_ne_nil _ hhd)]
  · intro hdup hhd hunused
    rw [addAuthTokenGetters, if_neg (not_bnot_isEmpty_of_nil _ hdup),
      if_neg (not_bnot_isEmpty_of_nil _ hhd),
      if_pos (bnot_isEmpty_of_ne_nil _ hunused)]
  · intro hdup hhd hunused
    refine ⟨{ t with
        authTokenGetters := spreadKV t.authTokenGetters newAuthTokenGetters
        requiredAuthnParams := (identifyAuthRequirements t.requiredAuthnParams
          t.requiredAuthzTokens (keysOf newAuthTokenGetters)).1
        requiredAuthzTokens := (identifyAuthRequirements t.requiredAuthnParams
          t.requiredAuthzTokens (keysOf newAuthTokenGetters)).2.1 },
      ?_, rfl, rfl, rfl, rfl, rfl, rfl, rfl, rfl, rfl, rfl⟩
    rw [addAuthTokenGetters, if_neg (not_bnot_isEmpty_of_nil _ hdup),
      if_neg (not_bnot_isEmpty_of_nil _ hhd),
      if_neg (not_bnot_isEmpty_of_nil _ hunused)]
    have hcombined := headerConflicts_spread_nil t.authTokenGetters newAuthTokenGetters
      t.clientHeaders hwf hhd
    simp [ToolboxTool, hcombined]
  · intro s
    rw [List.mem_filter]
    have hused := identifyAuthRequirements_used_mem t.requiredAuthnParams
      t.requiredAuthzTokens (keysOf newAuthTokenGetters) s
    constructor
    · rintro ⟨hin, hflt⟩
      have hnmem : s ∉ (identifyAuthRequirements t.requiredAuthnParams
          t.requiredAuthzTokens (keysOf newAuthTokenGetters)).2.2 := by
        intro hm
        rw [(contains_iff_mem _ s).mpr hm] at hflt
        simp at hflt
      rw [hused] at hnmem
      exact ⟨hin, fun ⟨e, he, hse⟩ => hnmem (Or.inl ⟨e, he, hse, hin⟩),
        fun hz => hnmem (Or.inr ⟨hz, hin⟩)⟩
    · rintro ⟨hin, hne, hnz⟩
      refine ⟨hin, ?_⟩
      have hnmem : s ∉ (identifyAuthRequirements t.requiredAuthnParams
          t.requiredAuthzTokens (keysOf newAuthTokenGetters)).2.2 := by
        rw [hused]
        rintro (⟨e, he, hse, _⟩ | ⟨hz, _⟩)
        · exact hne ⟨e, he, hse⟩
        · exact hnz hz
      have hcf : (identifyAuthRequirements t.requiredAuthnParams
          t.requiredAuthzTokens (keysOf newAuthTokenGetters)).2.2.contains s = false := by
        rcases Bool.eq_false_or_eq_true ((identifyAuthRequirements t.requiredAuthnParams
            t.requiredAuthzTokens (keysOf newAuthTokenGetters)).2.2.contains s) with hb | hb
        · exact absurd ((contains_iff_mem _ s).mp hb) hnmem
        · exact hb
      rw [hcf]
      rfl

end AddAuthSpec

/-- The getter map supplied in the C7 witness. -/
def sampleGetterMap : List (String × BoundValue Unit) :=
  [("my-auth-service", .lit (.vstr "token-value"))]

/-- Witness for C7: adding a getter for the single outstanding authz
token of `sampleIncompleteTool` succeeds and empties the outstanding
requirements. -/
theorem addAuthTokenGetters_spec_witness :
    (headerConflicts sampleIncompleteTool.authTokenGetters
      sampleIncompleteTool.clientHeaders = []) ∧
    (∃ t2, addAuthTokenGetters sampleIncompleteTool
        sampleGetterMap = .ok t2 ∧
      t2.authTokenGetters = spreadKV sampleIncompleteTool.authTokenGetters
        sampleGetterMap ∧
      t2.requiredAuthnParams = (identifyAuthRequirements
        sampleIncompleteTool.requiredAuthnParams
        sampleIncompleteTool.requiredAuthzTokens
        (keysOf sampleGetterMap)).1 ∧
      t2.requiredAuthzTokens = (identifyAuthRequirements
        sampleIncompleteTool.requiredAuthnParams
        sampleIncompleteTool.requiredAuthzTokens
        (keysOf sampleGetterMap)).2.1 ∧
      t2.baseUrl = sampleIncompleteTool.baseUrl ∧
      t2.toolName = sampleIncompleteTool.toolName ∧
      t2.description = sampleIncompleteTool.description ∧
      t2.params = sampleIncompleteTool.params ∧
      t2.paramsStrict = sampleIncompleteTool.paramsStrict ∧
      t2.boundParams = sampleIncompleteTool.boundParams ∧
      t2.clientHeaders = sampleIncompleteTool.clientHeaders) :=
  ⟨rfl,
   (addAuthTokenGetters_spec sampleIncompleteTool
      sampleGetterMap rfl).2.2.2.1
     (by rfl) (by rfl) (by rfl)⟩

/-! ## Claim C3 — the outgoing payload of a successful invocation -/

/-- JS question: take the first option if present, else the second
(used to state key-precedence laws). -/
def firstSome {α : Type} (a b : Option α) : Option α :=
  match a with
  | some v => some v
  | none => b

section LookupLemmas

variable {α : Type}

theorem lookupKey_cons (p : String × α) (rest : List (String × α)) (k2 : String) :
    lookupKey (p :: rest) k2 = if p.1 = k2 then some p.2 else lookupKey rest k2 := by
  by_cases h : p.1 = k2
  · rw [lookupKey, List.find?_cons_of_pos _ (by simpa using h), if_pos h]
    rfl
  · rw [lookupKey, List.find?_cons_of_neg _ (by simpa using h), if_neg h]
    rfl

theorem mem_keys_cons (p : String × α) (rest : List (String × α)) (k : String) :
    k ∈ keysOf (p :: rest) ↔ k = p.1 ∨ k ∈ keysOf rest := by
  simp only [keysOf, List.map_cons, List.mem_cons]

theorem lookupKey_eq_none_of_not_mem (fs : List (String × α)) (k : String)
    (h : k ∉ keysOf fs) : lookupKey fs k = none := by
  induction fs with
  | nil => rfl
  | cons p rest ih =>
      rw [mem_keys_cons] at h
      push_neg at h
      rw [lookupKey_cons, if_neg (fun hp => h.1 hp.symm)]
      exact ih h.2

theorem any_key_iff_mem_keys (fs : List (String × α)) (k : String) :
    fs.any (fun p => p.1 == k) = true ↔ k ∈ keysOf fs := by
  simp only [List.any_eq_true, beq_iff_eq, keysOf, List.mem_map]

theorem lookupKey_isSome_of_mem_keys (fs : List (String × α)) (k : String)
    (h : k ∈ keysOf fs) : ∃ w, lookupKey fs k = some w := by
  induction fs with
  | nil => simp [keysOf] at h
  | cons p rest ih =>
      rw [lookupKey_cons]
      by_cases hp : p.1 = k
      · exact ⟨p.2, if_pos hp⟩
      · rw [if_neg hp]
        rw [mem_keys_cons] at h
        rcases h with rfl | hk
        · exact absurd rfl hp
        · exact ih hk

theorem lookupKey_map_overwrite (fs : List (String × α)) (k : String) (v : α)
    (k2 : String) :
    lookupKey (fs.map (fun p => if p.1 == k then (k, v) else p)) k2 =
      if k2 = k then (lookupKey fs k).map (fun _ => v) else lookupKey fs k2 := by
  induction fs with
  | nil => simp [lookupKey]
  | cons p rest ih =>
      simp only [List.map_cons]
      by_cases hpk : p.1 = k
      · have hhead : (if (p.1 == k) then ((k, v) : String × α) else p) = (k, v) := by
          simp [hpk]
        rw [hhead, lookupKey_cons]
        by_cases hk2 : k2 = k
        · rw [if_pos hk2.symm, if_pos hk2, lookupKey_cons, if_pos hpk]
          rfl
        · rw [if_neg (fun hx : k = k2 => hk2 hx.symm), ih, if_neg hk2, if_neg hk2,
            lookupKey_cons, if_neg (fun hx : p.1 = k2 => hk2 ((hpk.symm.trans hx).symm))]
      · have hhead : (if (p.1 == k) then ((k, v) : String × α) else p) = p := by
          simp [hpk]
        rw [hhead, lookupKey_cons]
        by_cases hpk2 : p.1 = k2
        · have hk2 : ¬(k2 = k) := fun hx => hpk (hpk2.trans hx)
          rw [if_pos hpk2, if_neg hk2, lookupKey_cons, if_pos hpk2]
        · rw [if_neg hpk2, ih]
          by_cases hk2 : k2 = k
          · rw [if_pos hk2, if_pos hk2, lookupKey_cons, if_neg hpk]
          · rw [if_neg hk2, if_neg hk2, lookupKey_cons, if_neg hpk2]

theorem lookupKey_append_single (fs : List (String × α)) (k : String) (v : α)
    (k2 : String) :
    lookupKey (fs ++ [(k, v)]) k2 =
      (match lookupKey fs k2 with
       | some w => some w
       | none => if k2 = k then some v else none) := by
  induction fs with
  | nil =>
      simp only [List.nil_append, lookupKey_cons]
      by_cases hk : k = k2
      · rw [if_pos hk, if_pos hk.symm]
        rfl
      · rw [if_neg hk, if_neg (fun hx => hk hx.symm)]
        rfl
  | cons p rest ih =>
      simp only [List.cons_append]
      rw [lookupKey_cons, lookupKey_cons]
      by_cases hp : p.1 = k2
      · rw [if_pos hp, if_pos hp]
      · rw [if_neg hp, if_neg hp, ih]

theorem lookupKey_setKey (fs : List (String × α)) (k : String) (v : α) (k2 : String) :
    lookupKey (setKey fs k v) k2 = if k2 = k then some v else lookupKey fs k2 := by
  rw [setKey]
  split
  · rename_i hany
    rw [lookupKey_map_overwrite]
    by_cases hk2 : k2 = k
    · rw [if_pos hk2, if_pos hk2]
      obtain ⟨w, hw⟩ := lookupKey_isSome_of_mem_keys fs k
        ((any_key_iff_mem_keys fs k).mp hany)
      rw [hw]
      rfl
    · rw [if_neg hk2, if_neg hk2]
  · rename_i hany
    rw [lookupKey_append_single]
    by_cases hk2 : k2 = k
    · subst hk2
      have hnm : k2 ∉ keysOf fs := fun hm =>
        hany ((any_key_iff_mem_keys fs k2).mpr hm)
      rw [lookupKey_eq_none_of_not_mem fs k2 hnm, if_pos rfl]
    · cases hw : lookupKey fs k2 with
      | some w => simp [hk2]
      | none => simp [hk2]

theorem lookupKey_spreadKV (base extra : List (String × α)) (k : String)
    (hnd : (keysOf extra).Nodup) :
    lookupKey (spreadKV base extra) k =
      firstSome (lookupKey extra k) (lookupKey base k) := by
  induction extra generalizing base with
  | nil => rfl
  | cons p rest ih =>
      have hcons : (p.1 ∉ keysOf rest) ∧ (keysOf rest).Nodup := by
        rw [keysOf, List.map_cons, List.nodup_cons] at hnd
        exact hnd
      simp only [spreadKV, List.foldl_cons]
      rw [show List.foldl (fun acc q => setKey acc q.1 q.2) (setKey base p.1 p.2) rest =
        spreadKV (setKey base p.1 p.2) rest from rfl]
      rw [ih (setKey base p.1 p.2) hcons.2, lookupKey_cons]
      by_cases hk : p.1 = k
      · rw [lookupKey_eq_none_of_not_mem rest k (hk ▸ hcons.1), if_pos hk,
          lookupKey_setKey, if_pos hk.symm]
        rfl
      · rw [if_neg hk]
        cases hw : lookupKey rest k with
        | some w => rfl
        | none =>
            rw [lookupKey_setKey, if_neg (fun hx => hk hx.symm)]

theorem keysOf_spreadKV_nodup (base extra : List (String × α))
    (hbase : (keysOf base).Nodup) : (keysOf (spreadKV base extra)).Nodup := by
  induction extra generalizing base with
  | nil => exact hbase
  | cons p rest ih =>
      simp only [spreadKV, List.foldl_cons]
      refine ih (setKey base p.1 p.2) ?_
      rw [keysOf_setKey_eq]
      split
      · exact hbase
      · rename_i hany
        have hnm : p.1 ∉ keysOf base := fun hm =>
          hany ((any_key_iff_mem_keys base p.1).mpr hm)
        simp [List.nodup_append, hbase, hnm]

theorem lookupKey_filter_nullish (l : List (String × Value)) (k : String)
    (hnd : (keysOf l).Nodup) :
    lookupKey (l.filter (fun p => !(isNullish p.2))) k =
      (lookupKey l k).bind (fun v => if isNullish v then none else some v) := by
  induction l with
  | nil => rfl
  | cons p rest ih =>
      have hcons : (p.1 ∉ keysOf rest) ∧ (keysOf rest).Nodup := by
        rw [keysOf, List.map_cons, List.nodup_cons] at hnd
        exact hnd
      simp only [List.filter_cons]
      by_cases hn : isNullish p.2
      · rw [if_neg (by simp [hn]), ih hcons.2, lookupKey_cons]
        by_cases hk : p.1 = k
        · rw [if_pos hk, lookupKey_eq_none_of_not_mem rest k (hk ▸ hcons.1)]
          simp [hn]
        · rw [if_neg hk]
      · rw [if_pos (by simp [hn]), lookupKey_cons, lookupKey_cons]
        by_cases hk : p.1 = k
        · rw [if_pos hk, if_pos hk]
          simp [hn]
        · rw [if_neg hk, if_neg hk, ih hcons.2]

end LookupLemmas

section InvokeInversion

variable {σ : Type}

/-- A successful bound-parameter resolution keeps the keys (in
order). -/
theorem resolveEntries_ok_keys (entries : List (String × BoundValue σ)) (s : σ)
    (out : List (String × Value)) (s1 : σ)
    (h : resolveEntries entries s = (.ok out, s1)) : keysOf out = keysOf entries := by
  induction entries generalizing s out s1 with
  | nil =>
      rw [resolveEntries] at h
      cases h
      rfl
  | cons p rest ih =>
      obtain ⟨k, bv⟩ := p
      rw [resolveEntries] at h
      split at h
      · rename_i v s2 hr
        split at h
        · rename_i vs s3 hrest
          simp only [Prod.mk.injEq, Except.ok.injEq] at h
          obtain ⟨rfl, rfl⟩ := h
          simp only [keysOf, List.map_cons]
          rw [show List.map (fun p => p.1) vs = keysOf vs from rfl, ih s2 vs s3 hrest]
          rfl
        · exact absurd (congrArg Prod.fst h) (by simp)
      · exact absurd (congrArg Prod.fst h) (by simp)

/-- The keys of a `parseShape` output form a sublist of the shape's
keys. -/
theorem parseShape_keys_sublist (shape : List (String × ZodType))
    (fields : List (String × Value)) (out : List (String × Value))
    (h : parseShape shape fields = some out) :
    List.Sublist (keysOf out) (keysOf shape) := by
  induction shape generalizing out with
  | nil =>
      rw [parseShape] at h
      cases h
      exact List.Sublist.refl _
  | cons q restShape ih =>
      obtain ⟨k, t⟩ := q
      rw [parseShape] at h
      cases hl : lookupKey fields k with
      | some v =>
          rw [hl] at h
          simp only [bind, Option.bind_eq_some, Option.pure_def,
            Option.some.injEq] at h
          obtain ⟨o, hp2, outs, hs, rfl⟩ := h
          simp only [keysOf, List.map_cons]
          exact List.Sublist.cons₂ _ (ih outs hs)
      | none =>
          rw [hl] at h
          simp only [bind, Option.bind_eq_some, Option.pure_def,
            Option.some.injEq] at h
          obtain ⟨o, hp2, outs, hs, rfl⟩ := h
          by_cases hu : isUndef o
          · rw [if_pos hu]
            exact List.Sublist.cons _ (ih outs hs)
          · rw [if_neg hu]
            simp only [keysOf, List.map_cons]
            exact List.Sublist.cons₂ _ (ih outs hs)

/-- Inversion for a successful strict/strip object parse: the output is
an object produced by `parseShape`. -/
theorem parseZ_zobject_inv (shape : List (String × ZodType)) (strict : Bool)
    (fields : List (String × Value)) (out : Value)
    (h : parseZ (.zobject shape strict) (.vobj fields) = some out) :
    ∃ outf, out = .vobj outf ∧ parseShape shape fields = some outf := by
  rw [parseZ] at h
  split at h
  · simp at h
  · rw [Option.map_eq_some'] at h
    obtain ⟨outf, hps, rfl⟩ := h
    exact ⟨outf, rfl, hps⟩

end InvokeInversion

/-- C3: on every successful invocation, the issued request's payload is
the validated user arguments spread-merged with the freshly resolved
bound parameters — a resolved bound value winning every key collision —
with every entry whose value is `null` or `undefined` removed.  The
final conjunct is the per-key law: a key maps to the resolved bound
value if one exists, otherwise to the validated user value, and is
dropped exactly when that value is nullish.  (The `Nodup` hypotheses
record that JS objects cannot carry duplicate property names.) -/
theorem invoke_payload_spec {σ : Type} (t : Tool σ) (args : List (String × Value))
    (s : σ) (hp : (keysOf t.params).Nodup) (hb : (keysOf t.boundParams).Nodup)
    (r : HttpRequest) (sf : σ)
    (hok : invoke t args s = (.ok r, sf)) :
    ∃ validatedUserArgs resolvedBoundParams s1,
      parseZ (.zobject (omitKeys t.params (keysOf t.boundParams)) t.paramsStrict)
          (.vobj args) = some (.vobj validatedUserArgs) ∧
      resolveEntries t.boundParams s = (.ok resolvedBoundParams, s1) ∧
      r.payload = (spreadKV validatedUserArgs resolvedBoundParams).filter
        (fun q => !(isNullish q.2)) ∧
      (∀ k, lookupKey r.payload k =
        (firstSome (lookupKey resolvedBoundParams k)
          (lookupKey validatedUserArgs k)).bind
          (fun v => if isNullish v then none else some v)) := by
  simp only [invoke] at hok
  split at hok
  · exact absurd (congrArg (fun q => q.1) hok) (by simp)
  split at hok
  · exact absurd (congrArg (fun q => q.1) hok) (by simp)
  rename_i validated hparse
  obtain ⟨outf, rfl, hps⟩ := parseZ_zobject_inv _ _ _ _ hparse
  split at hok
  · exact absurd (congrArg (fun q => q.1) hok) (by simp)
  rename_i resolvedBoundParams s1 hres
  split at hok
  · exact absurd (congrArg (fun q => q.1) hok) (by simp)
  rename_i headerEntries s2 hhdr
  split at hok
  · exact absurd (congrArg (fun q => q.1) hok) (by simp)
  rename_i tokenEntries s3 htok
  simp only [Prod.mk.injEq, Except.ok.injEq] at hok
  obtain ⟨hrec, hsf⟩ := hok
  subst hrec
  refine ⟨outf, resolvedBoundParams, s1, hparse, hres, rfl, ?_⟩
  intro k
  have houtnd : (keysOf outf).Nodup := by
    have h1 := parseShape_keys_sublist _ _ _ hps
    have h2 : List.Sublist (keysOf (omitKeys t.params (keysOf t.boundParams)))
        (keysOf t.params) := by
      simp only [omitKeys, keysOf]
      exact (List.filter_sublist t.params).map (fun q => q.1)
    exact hp.sublist (h1.trans h2)
  have hvs_keys : keysOf resolvedBoundParams = keysOf t.boundParams :=
    resolveEntries_ok_keys _ _ _ _ hres
  have hvsnd : (keysOf resolvedBoundParams).Nodup := hvs_keys ▸ hb
  show lookupKey ((spreadKV outf resolvedBoundParams).filter
    (fun q => !(isNullish q.2))) k = _
  rw [lookupKey_filter_nullish _ k (keysOf_spreadKV_nodup _ _ houtnd)]
  rw [lookupKey_spreadKV _ _ k hvsnd]

/-- A ready tool with one bound parameter and one optional user
parameter, for the C3 witness. -/
def samplePayloadTool : Tool Unit :=
  { baseUrl := "http://localhost:5000"
    toolName := "get-n-rows"
    description := "sample"
    params := [("num_rows", .zstring), ("note", .znullish .zstring)]
    paramsStrict := true
    authTokenGetters := []
    requiredAuthnParams := []
    requiredAuthzTokens := []
    boundParams := [("num_rows", .lit (.vstr "3"))]
    clientHeaders := [] }

/-- The request `samplePayloadTool` issues when invoked with
`{note: null}`: the bound `num_rows` is injected, the null `note` is
stripped. -/
def sampleRequest : HttpRequest :=
  { url := "http://localhost:5000" ++ "/api/tool/" ++ "get-n-rows" ++ "/invoke"
    payload := [("num_rows", .vstr "3")]
    headers := [] }

/-- Witness for C3 at a concrete invocation. -/
theorem invoke_payload_spec_witness :
    ((keysOf samplePayloadTool.params).Nodup) ∧
    ((keysOf samplePayloadTool.boundParams).Nodup) ∧
    (∃ validatedUserArgs resolvedBoundParams s1,
      parseZ (.zobject (omitKeys samplePayloadTool.params
          (keysOf samplePayloadTool.boundParams)) samplePayloadTool.paramsStrict)
          (.vobj [("note", .vnull)]) = some (.vobj validatedUserArgs) ∧
      resolveEntries samplePayloadTool.boundParams () = (.ok resolvedBoundParams, s1) ∧
      sampleRequest.payload = (spreadKV validatedUserArgs resolvedBoundParams).filter
        (fun q => !(isNullish q.2)) ∧
      (∀ k, lookupKey sampleRequest.payload k =
        (firstSome (lookupKey resolvedBoundParams k)
          (lookupKey validatedUserArgs k)).bind
          (fun v => if isNullish v then none else some v))) :=
  ⟨by decide, by decide,
   invoke_payload_spec samplePayloadTool [("note", .vnull)] () (by decide) (by decide)
     sampleRequest ()
     (by simp [invoke, samplePayloadTool, sampleRequest, keysOf, omitKeys, parseZ,
       parseShape, lookupKey, resolveEntries, resolveValue,
       resolveClientHeaderEntries, resolveAuthTokenEntries, spreadKV, setKey,
       isNullish, isUndef])⟩

/-! ## Claim C10 — authenticated classification vs bound values

In `#createToolInstance` a parameter with a non-empty `authSources`
list is classified authenticated BEFORE the bound-name check, so a
caller-supplied bound value under that name is not consumed — and
`loadTool` then reports it as an unused bound parameter.  That is true
as long as no OTHER parameter of the tool bears the same name: a
duplicate plain parameter named like the authenticated one consumes
the bound value, and `loadTool` succeeds (see the counterexample). -/

section ClientLemmas

variable {σ : Type}

/-- Fold lemma: every key the partition loop adds to the bound map
comes from a non-authenticated parameter of that name. -/
theorem partition_bound_key_nonauth_aux (bound : List (String × BoundValue σ))
    (params : List ParameterSchema) (k : String) :
    ∀ (acc : List ParameterSchema × List (String × List String) ×
      List (String × BoundValue σ)),
      (k ∈ keysOf ((params.foldl
        (fun acc p =>
          if !(p.authSources.getD []).isEmpty then
            (acc.1, setKey acc.2.1 p.name (p.authSources.getD []), acc.2.2)
          else
            match lookupKey bound p.name with
            | some bv => (acc.1, acc.2.1, setKey acc.2.2 p.name bv)
            | none => (acc.1 ++ [p], acc.2.1, acc.2.2)) acc).2.2)) →
      (k ∈ keysOf acc.2.2 ∨ ∃ q ∈ params, q.name = k ∧ (q.authSources.getD []).isEmpty) := by
  induction params with
  | nil => exact fun acc hk => Or.inl hk
  | cons q rest ih =>
      intro acc hk
      simp only [List.foldl_cons] at hk
      by_cases hqa : (q.authSources.getD []).isEmpty
      · rw [if_neg (by simp [hqa])] at hk
        rcases hl : lookupKey bound q.name with _ | bv
        · rw [hl] at hk
          rcases ih (acc.1 ++ [q], acc.2.1, acc.2.2) hk with hk2 | ⟨q2, hq2, hname, hq2a⟩
          · exact Or.inl hk2
          · exact Or.inr ⟨q2, List.mem_cons_of_mem _ hq2, hname, hq2a⟩
        · rw [hl] at hk
          rcases ih (acc.1, acc.2.1, setKey acc.2.2 q.name bv) hk
              with hk2 | ⟨q2, hq2, hname, hq2a⟩
          · rw [show (acc.1, acc.2.1, setKey acc.2.2 q.name bv).2.2 =
              setKey acc.2.2 q.name bv from rfl, keysOf_setKey] at hk2
            rcases hk2 with hk2 | rfl
            · exact Or.inl hk2
            · exact Or.inr ⟨q, List.mem_cons_self .., rfl, hqa⟩
          · exact Or.inr ⟨q2, List.mem_cons_of_mem _ hq2, hname, hq2a⟩
      · rw [if_pos (by simp [hqa])] at hk
        rcases ih (acc.1, setKey acc.2.1 q.name (q.authSources.getD []), acc.2.2) hk
            with hk2 | ⟨q2, hq2, hname, hq2a⟩
        · exact Or.inl hk2
        · exact Or.inr ⟨q2, List.mem_cons_of_mem _ hq2, hname, hq2a⟩

/-- Every key of the partition's bound map comes from a
non-authenticated parameter of that name. -/
theorem partition_bound_key_nonauth (bound : List (String × BoundValue σ))
    (params : List ParameterSchema) (k : String)
    (h : k ∈ keysOf (partitionParams bound params).2.2) :
    ∃ q ∈ params, q.name = k ∧ (q.authSources.getD []).isEmpty := by
  rcases partition_bound_key_nonauth_aux bound params k ([], [], []) h with hk | hq
  · simp [keysOf] at hk
  · exact hq

/-- With a collision-free client-header configuration,
`#createToolInstance` always succeeds, reporting as used exactly the
matched auth services and the keys of the partitioned bound map. -/
theorem createToolInstance_ok (baseUrl : String)
    (clientHeaders : List (String × BoundValue σ)) (toolName : String)
    (toolSchema : ToolSchema) (getters bound : List (String × BoundValue σ))
    (hwf : headerConflicts getters clientHeaders = []) :
    ∃ tool, createToolInstance baseUrl clientHeaders toolName toolSchema getters bound =
      .ok (tool,
        (identifyAuthRequirements (partitionParams bound toolSchema.parameters).2.1
          (toolSchema.authRequired.getD []) (keysOf getters)).2.2,
        keysOf (partitionParams bound toolSchema.parameters).2.2) := by
  have h1 : (headerConflicts getters clientHeaders).isEmpty = true := by
    rw [hwf]
    rfl
  refine ⟨{ baseUrl := baseUrl
            toolName := toolName
            description := toolSchema.description
            params := (partitionParams bound toolSchema.parameters).1.foldl
              (fun shape param => setKey shape param.name (buildZodShapeFromParam param)) []
            paramsStrict := true
            authTokenGetters := getters
            requiredAuthnParams := (identifyAuthRequirements
              (partitionParams bound toolSchema.parameters).2.1
              (toolSchema.authRequired.getD []) (keysOf getters)).1
            requiredAuthzTokens := (identifyAuthRequirements
              (partitionParams bound toolSchema.parameters).2.1
              (toolSchema.authRequired.getD []) (keysOf getters)).2.1
            boundParams := (partitionParams bound toolSchema.parameters).2.2
            clientHeaders := clientHeaders }, ?_⟩
  simp [createToolInstance, ToolboxTool, h1, createZodSchemaFromParams]

/-- Membership in the provided-key set of `loadTool` / `loadToolset`. -/
theorem mem_providedKeySet (entries : List (String × BoundValue σ)) (k : String) :
    k ∈ providedKeySet entries ↔ k ∈ keysOf entries := by
  rw [providedKeySet, mem_foldl_insertUnique]
  simp

end ClientLemmas

/-- C10 amended: if some parameter of the named tool has a non-empty
authSources list, a caller-supplied bound value under the same name is
not consumed — PROVIDED every parameter of that name is authenticated
(in particular when parameter names are unique) — and `loadTool`
(reaching its unused-key accounting, i.e. construction itself does not
fail on a header collision) fails with a validation error whose
unused-bound list contains that name. -/
theorem authBound_precedence_spec {σ : Type} (baseUrl : String)
    (clientHeaders getters boundParams : List (String × BoundValue σ))
    (manifestTools : List (String × ToolSchema)) (name : String)
    (schema : ToolSchema) (p : ParameterSchema)
    (hlook : lookupKey manifestTools name = some schema)
    (hsame : ∀ q ∈ schema.parameters, q.name = p.name →
      ¬(q.authSources.getD []).isEmpty)
    (_hp : p ∈ schema.parameters)
    (hbound : p.name ∈ keysOf boundParams)
    (hwf : headerConflicts getters clientHeaders = []) :
    ∃ unusedAuth unusedBound,
      loadTool baseUrl clientHeaders manifestTools name getters boundParams =
        .error (.validationFailed name unusedAuth unusedBound) ∧
      p.name ∈ unusedBound := by
  obtain ⟨tool, hcti⟩ := createToolInstance_ok baseUrl clientHeaders name schema
    getters boundParams hwf
  have hnotused : p.name ∉ keysOf (partitionParams boundParams schema.parameters).2.2 := by
    intro hmem
    obtain ⟨q, hq, hqname, hqa⟩ := partition_bound_key_nonauth _ _ _ hmem
    exact hsame q hq hqname hqa
  have hprovided : p.name ∈ providedKeySet boundParams :=
    (mem_providedKeySet boundParams p.name).mpr hbound
  have hunused : p.name ∈ (providedKeySet boundParams).filter
      (fun k => !((keysOf (partitionParams boundParams schema.parameters).2.2).contains k)) := by
    rw [List.mem_filter]
    refine ⟨hprovided, ?_⟩
    have : (keysOf (partitionParams boundParams schema.parameters).2.2).contains p.name
        = false := by
      rcases Bool.eq_false_or_eq_true ((keysOf
          (partitionParams boundParams schema.parameters).2.2).contains p.name) with hb | hb
      · exact absurd ((contains_iff_mem _ _).mp hb) hnotused
      · exact hb
    rw [this]
    rfl
  refine ⟨(providedKeySet getters).filter
      (fun k => !((identifyAuthRequirements
        (partitionParams boundParams schema.parameters).2.1
        (schema.authRequired.getD []) (keysOf getters)).2.2.contains k)),
    (providedKeySet boundParams).filter
      (fun k => !((keysOf (partitionParams boundParams
        schema.parameters).2.2).contains k)), ?_, hunused⟩
  simp only [loadTool, hlook, hcti]
  rw [if_pos (by
    rw [Bool.or_eq_true]
    exact Or.inr (bnot_isEmpty_of_ne_nil _ (List.ne_nil_of_mem hunused)))]

/-- A tool schema with an authenticated parameter `a` AND a plain
parameter of the same name, used by the C10 counterexample. -/
def dupNameToolSchema : ToolSchema :=
  { description := "dup"
    parameters :=
      [{ name := "a", description := "auth", authSources := some ["svc"],
         required := none, typeSchema := .tstring },
       { name := "a", description := "plain", authSources := none,
         required := none, typeSchema := .tstring }]
    authRequired := none }

/-- C10 counterexample: the claim says `loadTool` ALWAYS fails with an
unused-bound-parameters error when a bound value shares its name with
an authenticated parameter; but with a duplicate plain parameter of
the same name the bound value IS consumed and `loadTool` succeeds. -/
theorem authBound_precedence_counterexample :
    ∃ t2, loadTool "http://localhost:5000" ([] : List (String × BoundValue Unit))
      [("tool1", dupNameToolSchema)] "tool1" []
      [("a", BoundValue.lit (.vstr "v"))] = .ok t2 :=
  ⟨_, rfl⟩

/-- A tool schema whose single parameter `a` is authenticated, for the
C10 witness. -/
def authParamToolSchema : ToolSchema :=
  { description := "auth"
    parameters :=
      [{ name := "a", description := "auth", authSources := some ["svc"],
         required := none, typeSchema := .tstring }]
    authRequired := none }

/-- Witness for C10 at a concrete manifest: the bound value under the
authenticated parameter name is reported unused. -/
theorem authBound_precedence_spec_witness :
    ∃ unusedAuth unusedBound,
      loadTool "http://localhost:5000" ([] : List (String × BoundValue Unit))
        [("tool1", authParamToolSchema)] "tool1" []
        [("a", BoundValue.lit (.vstr "v"))] =
        .error (.validationFailed "tool1" unusedAuth unusedBound) ∧
      "a" ∈ unusedBound :=
  authBound_precedence_spec "http://localhost:5000" [] []
    [("a", BoundValue.lit (.vstr "v"))] [("tool1", authParamToolSchema)] "tool1"
    authParamToolSchema
    { name := "a", description := "auth", authSources := some ["svc"],
      required := none, typeSchema := .tstring }
    rfl
    (by
      intro q hq hname
      rcases List.mem_cons.mp hq with rfl | hq2
      · simp [authParamToolSchema]
      · simp [authParamToolSchema] at hq2)
    (List.mem_cons_self ..)
    (by simp [keysOf])
    rfl

/-! ## Claim C4 — strict vs non-strict unused-key accounting -/

section ToolsetModes

variable {σ : Type}

/-- The auth-service keys a single tool of a toolset consumes (the
`usedAuthKeys` of `#createToolInstance` for that tool). -/
def perToolUsedAuth (getters bound : List (String × BoundValue σ))
    (ts : ToolSchema) : List String :=
  (identifyAuthRequirements (partitionParams bound ts.parameters).2.1
    (ts.authRequired.getD []) (keysOf getters)).2.2

/-- The bound-parameter keys a single tool of a toolset consumes (the
`usedBoundKeys` of `#createToolInstance` for that tool). -/
def perToolUsedBound (bound : List (String × BoundValue σ))
    (ts : ToolSchema) : List String :=
  keysOf (partitionParams bound ts.parameters).2.2

/-- Strict-mode loop, all tools clean: no error is raised. -/
theorem loop_strict_ok (baseUrl : String)
    (clientHeaders getters bound : List (String × BoundValue σ))
    (provA provB : List String) (entries : List (String × ToolSchema))
    (tools : List (Tool σ)) (oA oB : List String)
    (hwf : headerConflicts getters clientHeaders = [])
    (hclean : ∀ e ∈ entries,
      provA.filter (fun k => !((perToolUsedAuth getters bound e.2).contains k)) = [] ∧
      provB.filter (fun k => !((perToolUsedBound bound e.2).contains k)) = []) :
    ∃ res, loadToolsetLoop baseUrl clientHeaders getters bound provA provB true
      entries tools oA oB = .ok res := by
  induction entries generalizing tools with
  | nil => exact ⟨(tools, oA, oB), rfl⟩
  | cons e rest ih =>
      obtain ⟨tn, ts⟩ := e
      obtain ⟨tool, hcti⟩ := createToolInstance_ok baseUrl clientHeaders tn ts
        getters bound hwf
      obtain ⟨hA, hB⟩ := hclean (tn, ts) (List.mem_cons_self ..)
      rw [loadToolsetLoop, hcti]
      simp only [if_true]
      rw [show (identifyAuthRequirements (partitionParams bound ts.parameters).2.1
          (ts.authRequired.getD []) (keysOf getters)).2.2 =
        perToolUsedAuth getters bound ts from rfl]
      rw [show keysOf (partitionParams bound ts.parameters).2.2 =
        perToolUsedBound bound ts from rfl]
      rw [hA, hB]
      simp only [List.isEmpty_nil, Bool.not_true, Bool.or_self]
      rw [if_neg (by simp)]
      exact ih (tools ++ [tool]) (fun e2 he2 => hclean e2 (List.mem_cons_of_mem _ he2))

/-- Strict-mode loop: the first tool with an unused provided key makes
the loop throw that tool's validation error, whatever comes after
it. -/
theorem loop_strict_err (baseUrl : String)
    (clientHeaders getters bound : List (String × BoundValue σ))
    (provA provB : List String) (pre : List (String × ToolSchema))
    (tn : String) (ts : ToolSchema) (post : List (String × ToolSchema))
    (tools : List (Tool σ)) (oA oB : List String)
    (hwf : headerConflicts getters clientHeaders = [])
    (hclean : ∀ e ∈ pre,
      provA.filter (fun k => !((perToolUsedAuth getters bound e.2).contains k)) = [] ∧
      provB.filter (fun k => !((perToolUsedBound bound e.2).contains k)) = [])
    (hdirty : ¬(provA.filter
        (fun k => !((perToolUsedAuth getters bound ts).contains k)) = [] ∧
      provB.filter (fun k => !((perToolUsedBound bound ts).contains k)) = [])) :
    loadToolsetLoop baseUrl clientHeaders getters bound provA provB true
      (pre ++ (tn, ts) :: post) tools oA oB =
      .error (.validationFailed tn
        (provA.filter (fun k => !((perToolUsedAuth getters bound ts).contains k)))
        (provB.filter (fun k => !((perToolUsedBound bound ts).contains k)))) := by
  induction pre generalizing tools with
  | nil =>
      obtain ⟨tool, hcti⟩ := createToolInstance_ok baseUrl clientHeaders tn ts
        getters bound hwf
      rw [List.nil_append, loadToolsetLoop, hcti]
      simp only [if_true]
      rw [show (identifyAuthRequirements (partitionParams bound ts.parameters).2.1
          (ts.authRequired.getD []) (keysOf getters)).2.2 =
        perToolUsedAuth getters bound ts from rfl]
      rw [show keysOf (partitionParams bound ts.parameters).2.2 =
        perToolUsedBound bound ts from rfl]
      rw [if_pos]
      rw [Bool.or_eq_true]
      rcases Decidable.not_and_iff_or_not.mp hdirty with hA | hB
      · exact Or.inl (bnot_isEmpty_of_ne_nil _ hA)
      · exact Or.inr (bnot_isEmpty_of_ne_nil _ hB)
  | cons e pre2 ih =>
      obtain ⟨tn2, ts2⟩ := e
      obtain ⟨tool, hcti⟩ := createToolInstance_ok baseUrl clientHeaders tn2 ts2
        getters bound hwf
      obtain ⟨hA, hB⟩ := hclean (tn2, ts2) (List.mem_cons_self ..)
      rw [List.cons_append, loadToolsetLoop, hcti]
      simp only [if_true]
      rw [show (identifyAuthRequirements (partitionParams bound ts2.parameters).2.1
          (ts2.authRequired.getD []) (keysOf getters)).2.2 =
        perToolUsedAuth getters bound ts2 from rfl]
      rw [show keysOf (partitionParams bound ts2.parameters).2.2 =
        perToolUsedBound bound ts2 from rfl]
      rw [hA, hB]
      simp only [List.isEmpty_nil, Bool.not_true, Bool.or_self]
      rw [if_neg (by simp)]
      exact ih (tools ++ [tool]) (fun e2 he2 => hclean e2 (List.mem_cons_of_mem _ he2))

/-- Non-strict loop: never throws; the accumulated used-key sets hold
exactly the keys some processed tool used (plus what was already
accumulated). -/
theorem loop_nonstrict_ok (baseUrl : String)
    (clientHeaders getters bound : List (String × BoundValue σ))
    (provA provB : List String) (entries : List (String × ToolSchema))
    (tools : List (Tool σ)) (oA oB : List String)
    (hwf : headerConflicts getters clientHeaders = []) :
    ∃ tools2 oA2 oB2,
      loadToolsetLoop baseUrl clientHeaders getters bound provA provB false
        entries tools oA oB = .ok (tools2, oA2, oB2) ∧
      (∀ k, k ∈ oA2 ↔ (k ∈ oA ∨ ∃ e ∈ entries, k ∈ perToolUsedAuth getters bound e.2)) ∧
      (∀ k, k ∈ oB2 ↔ (k ∈ oB ∨ ∃ e ∈ entries, k ∈ perToolUsedBound bound e.2)) := by
  induction entries generalizing tools oA oB with
  | nil =>
      refine ⟨tools, oA, oB, rfl, fun k => ?_, fun k => ?_⟩ <;> simp
  | cons e rest ih =>
      obtain ⟨tn, ts⟩ := e
      obtain ⟨tool, hcti⟩ := createToolInstance_ok baseUrl clientHeaders tn ts
        getters bound hwf
      rw [loadToolsetLoop, hcti]
      simp only [Bool.false_eq_true, if_false]
      obtain ⟨tools2, oA2, oB2, hloop, hA2, hB2⟩ := ih (tools ++ [tool])
        ((identifyAuthRequirements (partitionParams bound ts.parameters).2.1
          (ts.authRequired.getD []) (keysOf getters)).2.2.foldl insertUnique oA)
        ((keysOf (partitionParams bound ts.parameters).2.2).foldl insertUnique oB)
      refine ⟨tools2, oA2, oB2, hloop, fun k => ?_, fun k => ?_⟩
      · rw [hA2 k, mem_foldl_insertUnique]
        constructor
        · rintro ((hk | hk) | ⟨e2, he2, hk⟩)
          · exact Or.inl hk
          · exact Or.inr ⟨(tn, ts), List.mem_cons_self .., hk⟩
          · exact Or.inr ⟨e2, List.mem_cons_of_mem _ he2, hk⟩
        · rintro (hk | ⟨e2, he2, hk⟩)
          · exact Or.inl (Or.inl hk)
          · rcases List.mem_cons.mp he2 with rfl | he2
            · exact Or.inl (Or.inr hk)
            · exact Or.inr ⟨e2, he2, hk⟩
      · rw [hB2 k, mem_foldl_insertUnique]
        constructor
        · rintro ((hk | hk) | ⟨e2, he2, hk⟩)
          · exact Or.inl hk
          · exact Or.inr ⟨(tn, ts), List.mem_cons_self .., hk⟩
          · exact Or.inr ⟨e2, List.mem_cons_of_mem _ he2, hk⟩
        · rintro (hk | ⟨e2, he2, hk⟩)
          · exact Or.inl (Or.inl hk)
          · rcases List.mem_cons.mp he2 with rfl | he2
            · exact Or.inl (Or.inr hk)
            · exact Or.inr ⟨e2, he2, hk⟩

end ToolsetModes

/-- C4: unused-key accounting of `loadToolset` by mode.  In strict mode
the loop fails at the FIRST tool that leaves any provided auth/bound
key unused — whatever tools follow it (the statement holds for every
`post`, including ones whose tools would use the key) — naming that
tool and its unused keys; if every tool consumes every provided key it
succeeds.  In non-strict mode usage is accumulated across the whole
set: it succeeds when every provided key is used by at least one tool,
and otherwise fails listing exactly the keys used by NO tool (a key
used by at least one tool never appears in the error). -/
theorem loadToolset_modes_spec (baseUrl : String)
    {σ : Type} (clientHeaders getters bound : List (String × BoundValue σ))
    (manifestTools : List (String × ToolSchema)) (tsName : String)
    (hwf : headerConflicts getters clientHeaders = []) :
    ((∀ e ∈ manifestTools,
        (providedKeySet getters).filter
          (fun k => !((perToolUsedAuth getters bound e.2).contains k)) = [] ∧
        (providedKeySet bound).filter
          (fun k => !((perToolUsedBound bound e.2).contains k)) = []) →
      ∃ tools, loadToolset baseUrl clientHeaders manifestTools tsName getters bound
        true = .ok tools) ∧
    (∀ (pre : List (String × ToolSchema)) (tn : String) (ts : ToolSchema)
        (post : List (String × ToolSchema)),
      manifestTools = pre ++ (tn, ts) :: post →
      (∀ e ∈ pre,
        (providedKeySet getters).filter
          (fun k => !((perToolUsedAuth getters bound e.2).contains k)) = [] ∧
        (providedKeySet bound).filter
          (fun k => !((perToolUsedBound bound e.2).contains k)) = []) →
      ¬((providedKeySet getters).filter
          (fun k => !((perToolUsedAuth getters bound ts).contains k)) = [] ∧
        (providedKeySet bound).filter
          (fun k => !((perToolUsedBound bound ts).contains k)) = []) →
      loadToolset baseUrl clientHeaders manifestTools tsName getters bound true =
        .error (.validationFailed tn
          ((providedKeySet getters).filter
            (fun k => !((perToolUsedAuth getters bound ts).contains k)))
          ((providedKeySet bound).filter
            (fun k => !((perToolUsedBound bound ts).contains k))))) ∧
    ((∀ k ∈ providedKeySet getters,
        ∃ e ∈ manifestTools, k ∈ perToolUsedAuth getters bound e.2) →
     (∀ k ∈ providedKeySet bound,
        ∃ e ∈ manifestTools, k ∈ perToolUsedBound bound e.2) →
      ∃ tools, loadToolset baseUrl clientHeaders manifestTools tsName getters bound
        false = .ok tools) ∧
    ((¬((providedKeySet getters).filter
          (fun k => !(manifestTools.any
            (fun e => (perToolUsedAuth getters bound e.2).contains k))) = []) ∨
      ¬((providedKeySet bound).filter
          (fun k => !(manifestTools.any
            (fun e => (perToolUsedBound bound e.2).contains k))) = [])) →
      loadToolset baseUrl clientHeaders manifestTools tsName getters bound false =
        .error (.toolsetValidationFailed tsName
          ((providedKeySet getters).filter
            (fun k => !(manifestTools.any
              (fun e => (perToolUsedAuth getters bound e.2).contains k))))
          ((providedKeySet bound).filter
            (fun k => !(manifestTools.any
              (fun e => (perToolUsedBound bound e.2).contains k)))))) := by
  have hnonstrict := loop_nonstrict_ok baseUrl clientHeaders getters bound
    (providedKeySet getters) (providedKeySet bound) manifestTools [] [] [] hwf
  obtain ⟨tools2, oA2, oB2, hloop, hA2, hB2⟩ := hnonstrict
  have hmemA : ∀ k, k ∈ oA2 ↔ ∃ e ∈ manifestTools, k ∈ perToolUsedAuth getters bound e.2 := by
    intro k
    rw [hA2 k]
    simp
  have hmemB : ∀ k, k ∈ oB2 ↔ ∃ e ∈ manifestTools, k ∈ perToolUsedBound bound e.2 := by
    intro k
    rw [hB2 k]
    simp
  have hcA : ∀ k, oA2.contains k =
      manifestTools.any (fun e => (perToolUsedAuth getters bound e.2).contains k) := by
    intro k
    refine Bool.coe_iff_coe.mp ?_
    rw [contains_iff_mem, hmemA k, List.any_eq_true]
    constructor
    · rintro ⟨e, he, hk⟩
      exact ⟨e, he, (contains_iff_mem _ _).mpr hk⟩
    · rintro ⟨e, he, hk⟩
      exact ⟨e, he, (contains_iff_mem _ _).mp hk⟩
  have hcB : ∀ k, oB2.contains k =
      manifestTools.any (fun e => (perToolUsedBound bound e.2).contains k) := by
    intro k
    refine Bool.coe_iff_coe.mp ?_
    rw [contains_iff_mem, hmemB k, List.any_eq_true]
    constructor
    · rintro ⟨e, he, hk⟩
      exact ⟨e, he, (contains_iff_mem _ _).mpr hk⟩
    · rintro ⟨e, he, hk⟩
      exact ⟨e, he, (contains_iff_mem _ _).mp hk⟩
  have hfA : (providedKeySet getters).filter (fun k => !(oA2.contains k)) =
      (providedKeySet getters).filter
        (fun k => !(manifestTools.any
          (fun e => (perToolUsedAuth getters bound e.2).contains k))) :=
    List.filter_congr (fun k _ => by rw [hcA k])
  have hfB : (providedKeySet bound).filter (fun k => !(oB2.contains k)) =
      (providedKeySet bound).filter
        (fun k => !(manifestTools.any
          (fun e => (perToolUsedBound bound e.2).contains k))) :=
    List.filter_congr (fun k _ => by rw [hcB k])
  refine ⟨?_, ?_, ?_, ?_⟩
  · intro hclean
    obtain ⟨res, hsloop⟩ := loop_strict_ok baseUrl clientHeaders getters bound
      (providedKeySet getters) (providedKeySet bound) manifestTools [] [] [] hwf hclean
    obtain ⟨ts2, oA3, oB3⟩ := res
    refine ⟨ts2, ?_⟩
    simp only [loadToolset, hsloop, if_true]
  · intro pre tn ts post hsplit hclean hdirty
    subst hsplit
    have hsloop := loop_strict_err baseUrl clientHeaders getters bound
      (providedKeySet getters) (providedKeySet bound) pre tn ts post [] [] [] hwf
      hclean hdirty
    simp only [loadToolset, hsloop]
  · intro huseA huseB
    refine ⟨tools2, ?_⟩
    simp only [loadToolset, hloop]
    have hallA : (providedKeySet getters).filter (fun k => !(oA2.contains k)) = [] := by
      rw [List.filter_eq_nil_iff]
      intro k hk hcon
      have : k ∈ oA2 := (hmemA k).mpr (huseA k hk)
      rw [(contains_iff_mem _ _).mpr this] at hcon
      simp at hcon
    have hallB : (providedKeySet bound).filter (fun k => !(oB2.contains k)) = [] := by
      rw [List.filter_eq_nil_iff]
      intro k hk hcon
      have : k ∈ oB2 := (hmemB k).mpr (huseB k hk)
      rw [(contains_iff_mem _ _).mpr this] at hcon
      simp at hcon
    rw [hallA, hallB]
    simp
  · intro hne
    simp only [loadToolset, hloop, Bool.false_eq_true, if_false]
    rw [hfA, hfB]
    rw [if_pos]
    rw [Bool.or_eq_true]
    rcases hne with hne | hne
    · exact Or.inl (bnot_isEmpty_of_ne_nil _ hne)
    · exact Or.inr (bnot_isEmpty_of_ne_nil _ hne)

/-- Toolset tool A: one plain string parameter `p`. -/
def toolASchema : ToolSchema :=
  { description := "tool A"
    parameters := [{ name := "p", description := "param p", authSources := none,
                     required := none, typeSchema := .tstring }]
    authRequired := none }

/-- Toolset tool B: one plain string parameter `q` (does not use
`p`). -/
def toolBSchema : ToolSchema :=
  { description := "tool B"
    parameters := [{ name := "q", description := "param q", authSources := none,
                     required := none, typeSchema := .tstring }]
    authRequired := none }

/-- A two-tool manifest for the C4 witness. -/
def sampleToolsetManifest : List (String × ToolSchema) :=
  [("toolA", toolASchema), ("toolB", toolBSchema)]

/-- A bound parameter matching only tool A. -/
def sampleBoundP : List (String × BoundValue Unit) :=
  [("p", .lit (.vstr "1"))]

/-- Witness for C4: with a bound param used only by tool A, strict
mode fails at tool B naming `p`, while non-strict mode succeeds. -/
theorem loadToolset_modes_spec_witness :
    (loadToolset "http://localhost:5000" ([] : List (String × BoundValue Unit))
        sampleToolsetManifest "" [] sampleBoundP true =
      .error (.validationFailed "toolB" [] ["p"])) ∧
    (∃ tools, loadToolset "http://localhost:5000"
        ([] : List (String × BoundValue Unit))
        sampleToolsetManifest "" [] sampleBoundP false = .ok tools) := by
  constructor
  · rw [(loadToolset_modes_spec "http://localhost:5000" [] [] sampleBoundP
      sampleToolsetManifest "" rfl).2.1 [("toolA", toolASchema)] "toolB" toolBSchema
      [] rfl ?hclean ?hdirty]
    rfl
    case hclean =>
      intro e he
      rcases List.mem_cons.mp he with h | h
      · rw [h]
        exact ⟨rfl, rfl⟩
      · exact absurd h (List.not_mem_nil e)
    case hdirty =>
      rw [show (providedKeySet sampleBoundP).filter
          (fun k => !((perToolUsedBound sampleBoundP toolBSchema).contains k)) =
        ["p"] from rfl]
      simp
  · refine (loadToolset_modes_spec "http://localhost:5000" [] [] sampleBoundP
      sampleToolsetManifest "" rfl).2.2.1 ?husea ?huseb
    case husea =>
      intro k hk
      rw [show providedKeySet ([] : List (String × BoundValue Unit)) = [] from rfl] at hk
      exact absurd hk (List.not_mem_nil k)
    case huseb =>
      intro k hk
      rw [show providedKeySet sampleBoundP = ["p"] from rfl] at hk
      have hkp : k = "p" := by simpa using hk
      subst hkp
      refine ⟨("toolA", toolASchema), List.mem_cons_self .., ?_⟩
      rw [show perToolUsedBound sampleBoundP ("toolA", toolASchema).2 = ["p"] from rfl]
      exact List.mem_cons_self ..
